import Mathlib

/-!
Verification of the player-statistics aggregation engine of the darts-league
web application (`src/app/page.tsx`, helpers in `src/lib/playerName.ts`).

Shallow embedding conventions:
* JavaScript `Map` objects (which iterate in insertion order) are modelled as
  association lists `List (String × V)`; `Map.get` is `alGet`, `Map.set` is
  `alSet`, and the common "get, create default if missing, mutate, set"
  pattern is `upsert`.
* Timestamps (`played_at` strings, compared through `new Date(s).getTime()`)
  are modelled as natural numbers (the `getTime` values).
* JavaScript numbers (`score`, win percentages, averages) are modelled as
  rationals `ℚ`.
* `Array.prototype.sort` with a consistent comparator is stable; it is
  modelled by the stable `List.insertionSort r` where `r a b` holds exactly
  when the comparator returns `≤ 0` on `(a, b)`.
* Nullable fields are `Option`; the JavaScript truthiness test on a nullable
  string (`if (!playerId) continue`, `if (row.match_id)`) is `truthy`.
-/

namespace DartsAgg

/-- JS truthiness of a nullable string: present and non-empty. -/
def truthy : Option String → Bool
  | some s => !s.isEmpty
  | none => false

/-- `profiles` row joined onto a `match_players` row (`page.tsx` lines 11-15). -/
structure Profile where
  id : String
  display_name : Option String
  first_name : Option String
deriving DecidableEq

/-- The joined `matches` object (`page.tsx` lines 23-26); `played_at` is the
`getTime` value of the timestamp string. -/
structure MatchInfo where
  game_type : Option String
  played_at : Nat
deriving DecidableEq

/-- One `match_players` row as consumed by `loadStats` (`page.tsx` lines 17-27,
after the array-normalization of lines 226-237).  `player_id` and `match_id`
are typed as strings upstream but are guarded by truthiness tests, so they are
modelled as `Option String`; the joined `matches` object is the field
`matchInfo` here because `matches` is not a usable field name in Lean. -/
structure MatchRow where
  player_id : Option String
  is_winner : Option Bool
  score : Option ℚ
  match_id : Option String
  profiles : Option Profile
  matchInfo : Option MatchInfo
deriving DecidableEq

/-- `formatPlayerName` from `src/lib/playerName.ts`, at the call sites of
`page.tsx` the third argument is omitted, so `shouldShowFirst` is `true`. -/
def formatPlayerName (display_name first_name : Option String) : String :=
  let d := display_name.map String.trim
  let f := first_name.map String.trim
  if truthy d && truthy f then (d.getD "") ++ " (" ++ (f.getD "") ++ ")"
  else if truthy d then d.getD ""
  else if truthy f then f.getD ""
  else "Unknown player"

/-- `categorizeGameType` (`page.tsx` lines 122-127). -/
def categorizeGameType (gameType : Option String) : String :=
  if gameType = some "Cricket" then "Cricket"
  else if gameType = some "501" then "501"
  else if gameType = some "301" then "301"
  else "Other"

/-- Guard of the row loop: `if (!playerId) continue` (line 284). -/
def isProcessed (r : MatchRow) : Bool := truthy r.player_id

/-- The player id of a processed row. -/
def pidOf (r : MatchRow) : String := r.player_id.getD ""

/-- `row.profiles ? formatPlayerName(...) : 'Unknown player'` (lines 286-289). -/
def dnameOf (r : MatchRow) : String :=
  match r.profiles with
  | some prof => formatPlayerName prof.display_name prof.first_name
  | none => "Unknown player"

/-- `row.matches?.game_type || null` (line 293): a missing join or an empty
game-type string collapses to `null`. -/
def gameTypeOf (r : MatchRow) : Option String :=
  match r.matchInfo with
  | none => none
  | some m =>
    match m.game_type with
    | none => none
    | some s => if s.isEmpty then none else some s

/-- `row.matches?.played_at || '1970-01-01T00:00:00.000Z'` (lines 294-295):
a missing join defaults to the epoch, i.e. time `0`. -/
def playedAtOf (r : MatchRow) : Nat :=
  match r.matchInfo with
  | none => 0
  | some m => m.played_at

/-- `row.is_winner === true` (line 299): only an exact `true` is a win. -/
def isWin (r : MatchRow) : Bool :=
  match r.is_winner with
  | some true => true
  | _ => false

/-- `gameType === 'Cricket'` (line 296). -/
def isCricket (r : MatchRow) : Bool := decide (gameTypeOf r = some "Cricket")

/-- `gameType === '501' || gameType === '301'` (line 297). -/
def isX01 (r : MatchRow) : Bool :=
  decide (gameTypeOf r = some "501") || decide (gameTypeOf r = some "301")

/-- `categorizeGameType(gameType)` (line 300). -/
def labelOf (r : MatchRow) : String := categorizeGameType (gameTypeOf r)

/-- A win/loss outcome stamped with its match time (`{ playedAt, isWin }`). -/
structure Outcome where
  playedAt : Nat
  isWin : Bool
deriving DecidableEq

/-- Entries of `wlMap` (lines 240-249). -/
structure WLEntry where
  playerId : String
  displayName : String
  wins : Nat
  losses : Nat
  games : Nat
deriving DecidableEq

/-- Entries of `threeMap` / `mprMap` (lines 258-266). -/
structure AvgEntry where
  playerId : String
  displayName : String
  total : ℚ
  games : Nat
deriving DecidableEq

/-- Entries of the inner maps of `perGameTypeMap` (lines 277-280). -/
structure GTEntry where
  wins : Nat
  losses : Nat
  games : Nat
  outcomes : List Outcome
deriving DecidableEq

/-- A participant recorded in `matchParticipants` (line 272). -/
structure Participant where
  playerId : String
  isWinner : Bool
  displayName : String
deriving DecidableEq

/-- Entries of `matchParticipants` (lines 268-274). -/
structure MatchGroup where
  playedAt : Nat
  participants : List Participant
deriving DecidableEq

/-- Entries of the inner maps of `headMap` (lines 48-51). -/
structure H2HEntry where
  displayName : String
  outcomes : List Outcome
deriving DecidableEq

/-- `Map.get`. -/
def alGet {V : Type} (k : String) : List (String × V) → Option V
  | [] => none
  | (k', v) :: t => if k' = k then some v else alGet k t

/-- `Map.set` (replace in place, or append when the key is new). -/
def alSet {V : Type} (k : String) (v : V) : List (String × V) → List (String × V)
  | [] => [(k, v)]
  | (k', v') :: t => if k' = k then (k', v) :: t else (k', v') :: alSet k v t

/-- The "get, create `d` if absent, mutate by `f`" pattern used for every map
in the row loop. -/
def upsert {V : Type} (k : String) (d : V) (f : V → V) :
    List (String × V) → List (String × V)
  | [] => [(k, f d)]
  | (k', v) :: t => if k' = k then (k', f v) :: t else (k', v) :: upsert k d f t

/-- `playerNameMap.set(playerId, displayName)` (line 291). -/
def nameStep (m : List (String × String)) (r : MatchRow) : List (String × String) :=
  alSet (pidOf r) (dnameOf r) m

/-- The `matchParticipants` update (lines 302-313): group rows by truthy
`match_id`, remembering the `playedAt` of the first row of the match. -/
def partsStep (m : List (String × MatchGroup)) (r : MatchRow) :
    List (String × MatchGroup) :=
  if truthy r.match_id then
    upsert (r.match_id.getD "") ⟨playedAtOf r, []⟩
      (fun g => { g with participants := g.participants ++ [⟨pidOf r, isWin r, dnameOf r⟩] })
      m
  else m

/-- The `wlMap` update (lines 315-333). -/
def wlStep (m : List (String × WLEntry)) (r : MatchRow) : List (String × WLEntry) :=
  upsert (pidOf r) ⟨pidOf r, dnameOf r, 0, 0, 0⟩
    (fun e =>
      let e := { e with games := e.games + 1 }
      if isWin r then { e with wins := e.wins + 1 } else { e with losses := e.losses + 1 })
    m

/-- The `outcomesMap` update (lines 335-341). -/
def outStep (m : List (String × List Outcome)) (r : MatchRow) :
    List (String × List Outcome) :=
  upsert (pidOf r) [] (fun l => l ++ [⟨playedAtOf r, isWin r⟩]) m

/-- The `threeMap` update (lines 343-357): 501/301 rows with a present score. -/
def threeStep (m : List (String × AvgEntry)) (r : MatchRow) : List (String × AvgEntry) :=
  if isX01 r && r.score.isSome then
    upsert (pidOf r) ⟨pidOf r, dnameOf r, 0, 0⟩
      (fun e => { e with total := e.total + r.score.getD 0, games := e.games + 1 })
      m
  else m

/-- The `mprMap` update (lines 359-373): Cricket rows with a present score. -/
def mprStep (m : List (String × AvgEntry)) (r : MatchRow) : List (String × AvgEntry) :=
  if isCricket r && r.score.isSome then
    upsert (pidOf r) ⟨pidOf r, dnameOf r, 0, 0⟩
      (fun e => { e with total := e.total + r.score.getD 0, games := e.games + 1 })
      m
  else m

/-- The `perGameTypeMap` update (lines 375-394). -/
def gtStep (m : List (String × List (String × GTEntry))) (r : MatchRow) :
    List (String × List (String × GTEntry)) :=
  upsert (pidOf r) [] (fun pm =>
    upsert (labelOf r) ⟨0, 0, 0, []⟩
      (fun g =>
        let g := { g with games := g.games + 1 }
        let g :=
          if isWin r then { g with wins := g.wins + 1 } else { g with losses := g.losses + 1 }
        { g with outcomes := g.outcomes ++ [⟨playedAtOf r, isWin r⟩] })
      pm)
    m

/-- All accumulator maps of the row loop of `loadStats` (lines 240-280). -/
structure AggState where
  wl : List (String × WLEntry)
  outcomes : List (String × List Outcome)
  three : List (String × AvgEntry)
  mpr : List (String × AvgEntry)
  parts : List (String × MatchGroup)
  names : List (String × String)
  perGT : List (String × List (String × GTEntry))
deriving DecidableEq

/-- One iteration of the row loop (lines 282-395).  Rows with a falsy
`player_id` are skipped; otherwise each map receives its independent update. -/
def stepRow (s : AggState) (r : MatchRow) : AggState :=
  if isProcessed r then
    { wl := wlStep s.wl r
      outcomes := outStep s.outcomes r
      three := threeStep s.three r
      mpr := mprStep s.mpr r
      parts := partsStep s.parts r
      names := nameStep s.names r
      perGT := gtStep s.perGT r }
  else s

def initState : AggState := ⟨[], [], [], [], [], [], []⟩

/-- The whole row loop. -/
def processRows (rows : List MatchRow) : AggState := rows.foldl stepRow initState

/-- Chronological comparator `(a, b) => ta - tb` (lines 403-407): `a` may
precede `b` when the comparator is `≤ 0`. -/
def chronOrder (a b : Outcome) : Prop := a.playedAt ≤ b.playedAt

instance : DecidableRel chronOrder := fun a b => by unfold chronOrder; exact inferInstance

/-- Chronological (stable) sort by `playedAt`. -/
def sortChron (l : List Outcome) : List Outcome := List.insertionSort chronOrder l

/-- The backward streak scan (lines 418-428), already past the most recent
entry: `ty` is the current streak type, `cnt` the count so far, and the
argument list is the rest of the reversed sequence. -/
def streakAux (ty : Bool) (cnt : Nat) : List Outcome → Nat
  | [] => cnt
  | o :: rest => if o.isWin = ty then streakAux ty (cnt + 1) rest else cnt

/-- The streak computation on a chronologically sorted sequence
(lines 414-432 and 545-564). -/
def computeStreak (sorted : List Outcome) : String :=
  match sorted.reverse with
  | [] => ""
  | o :: rest => (if o.isWin then "W" else "L") ++ toString (streakAux o.isWin 1 rest)

/-- The `slice(-k)` rolling-window record (lines 434-443 and 566-574). -/
def recordOf (k : Nat) (sorted : List Outcome) : String :=
  let recent := sorted.drop (sorted.length - k)
  let wins := (recent.filter (fun o => o.isWin)).length
  let losses := recent.length - wins
  toString wins ++ "-" ++ toString losses

structure Summary where
  streak : String
  last5 : String
  last10 : String
deriving DecidableEq

/-- `summarizeOutcomes` (lines 536-577). -/
def summarizeOutcomes (outcomes : List Outcome) : Summary :=
  if outcomes.isEmpty then ⟨"", "", ""⟩
  else
    let sorted := sortChron outcomes
    ⟨computeStreak sorted, recordOf 5 sorted, recordOf 10 sorted⟩

/-- A finished leaderboard record (lines 29-39). -/
structure WinLossStats where
  playerId : String
  displayName : String
  wins : Nat
  losses : Nat
  games : Nat
  winPct : ℚ
  streak : String
  last5 : String
  last10 : String
deriving DecidableEq

/-- A finished averages record (lines 41-46). -/
structure AverageStats where
  playerId : String
  displayName : String
  avg : ℚ
  games : Nat
deriving DecidableEq

/-- One row of the per-game-type breakdown (lines 55-64). -/
structure GameTypeStatsRow where
  type : String
  wins : Nat
  losses : Nat
  games : Nat
  winPct : ℚ
  streak : String
  last5 : String
  last10 : String
deriving DecidableEq

/-- The win/loss comparator of lines 460-464 (also 704-708), as the relation
"the comparator on `(a, b)` returns `≤ 0`", i.e. `a` may precede `b`. -/
def wlOrder (a b : WinLossStats) : Prop :=
  if a.winPct = b.winPct then
    if a.wins = b.wins then b.games ≤ a.games else b.wins ≤ a.wins
  else b.winPct ≤ a.winPct

instance : DecidableRel wlOrder := fun a b => by unfold wlOrder; exact inferInstance

/-- The averages comparator of lines 475-478 / 489-492. -/
def avgOrder (a b : AverageStats) : Prop :=
  if a.avg = b.avg then b.games ≤ a.games else b.avg ≤ a.avg

instance : DecidableRel avgOrder := fun a b => by unfold avgOrder; exact inferInstance

/-- Finalization of one `wlMap` entry (lines 399-459). -/
def mkWinLoss (outcomesAL : List (String × List Outcome)) (e : WLEntry) : WinLossStats :=
  let outcomes := (alGet e.playerId outcomesAL).getD []
  let sorted := sortChron outcomes
  let streak := if outcomes.isEmpty then "" else computeStreak sorted
  let last5 := if outcomes.isEmpty then "" else recordOf 5 sorted
  let last10 := if outcomes.isEmpty then "" else recordOf 10 sorted
  let winPct : ℚ := if e.games > 0 then ((e.wins : ℚ) / (e.games : ℚ)) * 100 else 0
  ⟨e.playerId, e.displayName, e.wins, e.losses, e.games, winPct, streak, last5, last10⟩

/-- `wlList` (lines 398-464): finalize every `wlMap` entry in insertion order,
then sort by the win/loss comparator. -/
def wlList (rows : List MatchRow) : List WinLossStats :=
  let s := processRows rows
  List.insertionSort wlOrder ((s.wl.map Prod.snd).map (mkWinLoss s.outcomes))

/-- Finalization shared verbatim by `threeList` (lines 467-478) and `mprList`
(lines 481-492): map to averages, drop zero-game entries, sort. -/
def finalizeAvg (m : List (String × AvgEntry)) : List AverageStats :=
  List.insertionSort avgOrder
    (((m.map Prod.snd).map (fun e =>
        (⟨e.playerId, e.displayName,
          if e.games > 0 then e.total / (e.games : ℚ) else 0, e.games⟩ : AverageStats))).filter
      (fun e => decide (e.games > 0)))

/-- The 3-dart-average leaderboard (lines 467-478). -/
def threeList (rows : List MatchRow) : List AverageStats :=
  finalizeAvg (processRows rows).three

/-- The MPR leaderboard (lines 481-492). -/
def mprList (rows : List MatchRow) : List AverageStats :=
  finalizeAvg (processRows rows).mpr

/-- One head-to-head push (lines 501-519): record for participant `P` that it
faced opponent `O` (named `oname`) at time `t` with outcome `w`. -/
def h2hPush (hm : List (String × List (String × H2HEntry))) (P O oname : String)
    (t : Nat) (w : Bool) : List (String × List (String × H2HEntry)) :=
  let pm := (alGet P hm).getD []
  let ent :=
    match alGet O pm with
    | none => (⟨oname, []⟩ : H2HEntry)
    | some e =>
      if e.displayName.isEmpty && !oname.isEmpty then { e with displayName := oname } else e
  let ent := { ent with outcomes := ent.outcomes ++ [⟨t, w⟩] }
  alSet P (alSet O ent pm) hm

/-- The `headMap` construction (lines 494-522). -/
def buildHead (parts : List (String × MatchGroup)) :
    List (String × List (String × H2HEntry)) :=
  parts.foldl
    (fun hm kg =>
      kg.2.participants.foldl
        (fun hm p =>
          kg.2.participants.foldl
            (fun hm o =>
              if p.playerId = o.playerId then hm
              else h2hPush hm p.playerId o.playerId o.displayName kg.2.playedAt p.isWinner)
            hm)
        hm)
    []

/-- `headToHeadStats` (lines 669-711) for a selected player. -/
def headToHeadStats (rows : List MatchRow) (pid : String) : List WinLossStats :=
  let s := processRows rows
  let hm := buildHead s.parts
  match alGet pid hm with
  | none => []
  | some om =>
    List.insertionSort wlOrder
      (om.map (fun kv =>
        let oid := kv.1
        let data := kv.2
        let sorted := sortChron data.outcomes
        let wins := (sorted.filter (fun o => o.isWin)).length
        let games := sorted.length
        let losses := games - wins
        let sum := summarizeOutcomes sorted
        let winPct : ℚ := if games > 0 then ((wins : ℚ) / (games : ℚ)) * 100 else 0
        let displayName :=
          if !data.displayName.isEmpty then data.displayName
          else
            let n := (alGet oid s.names).getD ""
            if !n.isEmpty then n else "Unknown player"
        ⟨oid, displayName, wins, losses, games, winPct, sum.streak, sum.last5, sum.last10⟩))

/-- `GAME_TYPE_ORDER` (line 66). -/
def GAME_TYPE_ORDER : List String := ["Cricket", "501", "301", "Other"]

/-- `gameTypeStats` (lines 733-757) for a selected player. -/
def gameTypeStats (rows : List MatchRow) (pid : String) : List GameTypeStatsRow :=
  let s := processRows rows
  match alGet pid s.perGT with
  | none => []
  | some pm =>
    GAME_TYPE_ORDER.map (fun t =>
      let entry := (alGet t pm).getD ⟨0, 0, 0, []⟩
      let sum := summarizeOutcomes entry.outcomes
      let winPct : ℚ :=
        if entry.games > 0 then ((entry.wins : ℚ) / (entry.games : ℚ)) * 100 else 0
      ⟨t, entry.wins, entry.losses, entry.games, winPct, sum.streak, sum.last5, sum.last10⟩)

/-! ### Specification-side definitions

These definitions follow the wording of the natural-language specification and
are used in theorem statements, to be compared with the pipeline above. -/

/-- The processed rows (truthy `player_id`) belonging to player `p`, in input
order. -/
def rowsOf (p : String) (rows : List MatchRow) : List MatchRow :=
  rows.filter (fun r => isProcessed r && decide (pidOf r = p))

/-- Number of games of player `p`. -/
def gamesOf (p : String) (rows : List MatchRow) : Nat := (rowsOf p rows).length

/-- Number of wins of player `p`. -/
def winsOf (p : String) (rows : List MatchRow) : Nat :=
  ((rowsOf p rows).filter (fun r => isWin r)).length

/-- Number of losses of player `p`. -/
def lossCountOf (p : String) (rows : List MatchRow) : Nat :=
  ((rowsOf p rows).filter (fun r => !isWin r)).length

/-- The outcome sequence of player `p`, in input order. -/
def outsOf (p : String) (rows : List MatchRow) : List Outcome :=
  (rowsOf p rows).map (fun r => ⟨playedAtOf r, isWin r⟩)

/-- The rows of player `p` qualifying for the 3-dart average: game type 501 or
301 and a present numeric score. -/
def x01Rows (p : String) (rows : List MatchRow) : List MatchRow :=
  rows.filter (fun r => isProcessed r && decide (pidOf r = p) && isX01 r && r.score.isSome)

/-- Total score of player `p` over its 3-dart-average qualifying rows. -/
def x01Sum (p : String) (rows : List MatchRow) : ℚ :=
  ((x01Rows p rows).map (fun r => r.score.getD 0)).sum

/-- The rows of player `p` qualifying for MPR: game type Cricket and a present
numeric score. -/
def cricketRows (p : String) (rows : List MatchRow) : List MatchRow :=
  rows.filter (fun r => isProcessed r && decide (pidOf r = p) && isCricket r && r.score.isSome)

/-- Total score of player `p` over its MPR qualifying rows. -/
def cricketSum (p : String) (rows : List MatchRow) : ℚ :=
  ((cricketRows p rows).map (fun r => r.score.getD 0)).sum

/-- The processed rows of player `p` falling into game-type category `c`. -/
def gtRowsOf (p c : String) (rows : List MatchRow) : List MatchRow :=
  rows.filter (fun r => isProcessed r && decide (pidOf r = p) && decide (labelOf r = c))

/-- The outcome sequence of player `p` within category `c`, in input order. -/
def gtOutsOf (p c : String) (rows : List MatchRow) : List Outcome :=
  (gtRowsOf p c rows).map (fun r => ⟨playedAtOf r, isWin r⟩)

/-- Streak as worded by the spec: the outcome letter of the chronologically
last game followed by the length of the trailing run of identical outcomes
(scan backward, stop at the first mismatch); empty sequence gives `""`. -/
def specStreak (l : List Outcome) : String :=
  match l.getLast? with
  | none => ""
  | some z =>
    (if z.isWin then "W" else "L") ++
      toString (l.reverse.takeWhile (fun o => o.isWin == z.isWin)).length

/-- The last `k` entries of a sequence (all of it when it is shorter). -/
def lastWindow (k : Nat) (l : List Outcome) : List Outcome := l.drop (l.length - k)

/-- Rolling-window record as worded by the spec: wins and losses among the
last `k` entries, formatted `"<wins>-<losses>"`. -/
def specRecord (k : Nat) (l : List Outcome) : String :=
  toString ((lastWindow k l).filter (fun o => o.isWin)).length ++ "-" ++
    toString ((lastWindow k l).filter (fun o => !o.isWin)).length

/-- The claimed output ordering: descending win percentage, ties broken by
descending win count, then by descending games played. -/
def wlDescending (a b : WinLossStats) : Prop :=
  b.winPct < a.winPct ∨
    (b.winPct = a.winPct ∧ (b.wins < a.wins ∨ (b.wins = a.wins ∧ b.games ≤ a.games)))

/-- Normalize the winner flag: an absent `is_winner` becomes an explicit
`false` (and `some true` stays `true`). -/
def normWinner (r : MatchRow) : MatchRow := { r with is_winner := some (isWin r) }

/-- Forget the score of a row. -/
def eraseScore (r : MatchRow) : MatchRow := { r with score := none }

/-- Both players appear among the participants of a match group. -/
def bothAppear (A B : String) (g : MatchGroup) : Bool :=
  decide (A ∈ g.participants.map (fun q => q.playerId)) &&
    decide (B ∈ g.participants.map (fun q => q.playerId))

/-- Number of grouped matches in which players `A` and `B` both appear. -/
def matchesWithBoth (A B : String) (rows : List MatchRow) : Nat :=
  (((processRows rows).parts).filter (fun kg => bothAppear A B kg.2)).length

/-! ### Helper definitions for the verification -/

/-- The keys of an association list. -/
def alKeys {V : Type} (l : List (String × V)) : List String := l.map Prod.fst

/-- Projection of a `wlMap` entry to its three counters. -/
def wlTriple (e : WLEntry) : Nat × Nat × Nat := (e.wins, e.losses, e.games)

/-- Projection of an averages entry to its accumulators. -/
def avgPair (e : AvgEntry) : ℚ × Nat := (e.total, e.games)

/-- Wins of player `p` within category `c`. -/
def gtWinsOf (p c : String) (rows : List MatchRow) : Nat :=
  ((gtRowsOf p c rows).filter (fun r => isWin r)).length

/-- Losses of player `p` within category `c`. -/
def gtLossOf (p c : String) (rows : List MatchRow) : Nat :=
  ((gtRowsOf p c rows).filter (fun r => !isWin r)).length

/-- Games of player `p` within category `c`. -/
def gtGamesOf (p c : String) (rows : List MatchRow) : Nat := (gtRowsOf p c rows).length

/-- Invariant of `wlMap` entries: the embedded `playerId` is the key, and the
counters add up. -/
def wlInv (k : String) (e : WLEntry) : Prop :=
  e.playerId = k ∧ e.wins + e.losses = e.games

/-- Invariant of averages entries: the embedded `playerId` is the key. -/
def avgInv (k : String) (e : AvgEntry) : Prop := e.playerId = k

/-- A demonstration row with a falsy `player_id` (and no other data). -/
def badRow : MatchRow := ⟨none, none, none, none, none, none⟩

/-- A demonstration row: player `"a"` wins a Cricket game. -/
def cricketWinRow : MatchRow :=
  ⟨some "a", some true, none, some "m1", none, some ⟨some "Cricket", 1⟩⟩

/-- Number of participants of a match group having a given player id. -/
def cntIn (X : String) (g : MatchGroup) : Nat :=
  (g.participants.filter (fun q => decide (q.playerId = X))).length

/-- Number of head-to-head outcome entries recorded for the ordered pair
`(A, B)` (0 when no entry exists). -/
def h2hLen (A B : String) (hm : List (String × List (String × H2HEntry))) : Nat :=
  ((alGet B ((alGet A hm).getD [])).map (fun e => e.outcomes.length)).getD 0

/-- Structural invariant of the head-to-head map: no duplicate outer or inner
keys, and every entry holds a non-empty outcome list. -/
def hmInv (hm : List (String × List (String × H2HEntry))) : Prop :=
  (alKeys hm).Nodup ∧
    ∀ kv ∈ hm, (alKeys kv.2).Nodup ∧ ∀ kv2 ∈ kv.2, kv2.2.outcomes ≠ []

/-- A demonstration 1v1 match: `"a"` beats `"b"` in a 501 game. -/
def h2hDemo : List MatchRow :=
  [⟨some "a", some true, none, some "m1", none, some ⟨some "501", 1⟩⟩,
    ⟨some "b", some false, none, some "m1", none, some ⟨some "501", 1⟩⟩]

/-! ### Association-list lemmas -/

theorem alGet_upsert_self {V : Type} (k : String) (d : V) (f : V → V) (l : List (String × V)) :
    alGet k (upsert k d f l) = some (f ((alGet k l).getD d)) := by
  induction l with
  | nil => simp [alGet, upsert]
  | cons kv t ih =>
    obtain ⟨k', v⟩ := kv
    by_cases h : k' = k <;> simp [alGet, upsert, h, ih]

theorem alGet_upsert_ne {V : Type} {k k' : String} (h : k ≠ k') (d : V) (f : V → V)
    (l : List (String × V)) : alGet k (upsert k' d f l) = alGet k l := by
  induction l with
  | nil =>
    have hne : ¬k' = k := fun hh => h hh.symm
    simp [alGet, upsert, hne]
  | cons kv t ih =>
    obtain ⟨k₀, v⟩ := kv
    by_cases h0 : k₀ = k' <;> by_cases h1 : k₀ = k <;>
      simp_all [alGet, upsert]

theorem alGet_alSet_self {V : Type} (k : String) (v : V) (l : List (String × V)) :
    alGet k (alSet k v l) = some v := by
  induction l with
  | nil => simp [alGet, alSet]
  | cons kv t ih =>
    obtain ⟨k', v'⟩ := kv
    by_cases h : k' = k <;> simp [alGet, alSet, h, ih]

theorem alGet_alSet_ne {V : Type} {k k' : String} (h : k ≠ k') (v : V)
    (l : List (String × V)) : alGet k (alSet k' v l) = alGet k l := by
  induction l with
  | nil =>
    have hne : ¬k' = k := fun hh => h hh.symm
    simp [alGet, alSet, hne]
  | cons kv t ih =>
    obtain ⟨k₀, v'⟩ := kv
    by_cases h0 : k₀ = k' <;> by_cases h1 : k₀ = k <;>
      simp_all [alGet, alSet]

@[simp] theorem alKeys_nil {V : Type} : alKeys ([] : List (String × V)) = [] := rfl

@[simp] theorem alKeys_cons {V : Type} (kv : String × V) (t : List (String × V)) :
    alKeys (kv :: t) = kv.1 :: alKeys t := rfl

theorem alKeys_upsert {V : Type} (k : String) (d : V) (f : V → V) (l : List (String × V)) :
    alKeys (upsert k d f l) = if k ∈ alKeys l then alKeys l else alKeys l ++ [k] := by
  induction l with
  | nil => simp [upsert]
  | cons kv t ih =>
    obtain ⟨k', v⟩ := kv
    by_cases h : k' = k
    · subst h
      simp [upsert]
    · have hne : k ≠ k' := fun hh => h hh.symm
      simp only [upsert, if_neg h, alKeys_cons, ih]
      by_cases hm : k ∈ alKeys t <;> simp [hm, hne]

theorem alKeys_alSet {V : Type} (k : String) (v : V) (l : List (String × V)) :
    alKeys (alSet k v l) = if k ∈ alKeys l then alKeys l else alKeys l ++ [k] := by
  induction l with
  | nil => simp [alSet]
  | cons kv t ih =>
    obtain ⟨k', v'⟩ := kv
    by_cases h : k' = k
    · subst h
      simp [alSet]
    · have hne : k ≠ k' := fun hh => h hh.symm
      simp only [alSet, if_neg h, alKeys_cons, ih]
      by_cases hm : k ∈ alKeys t <;> simp [hm, hne]

theorem nodup_upsert {V : Type} {l : List (String × V)} (h : (alKeys l).Nodup)
    (k : String) (d : V) (f : V → V) : (alKeys (upsert k d f l)).Nodup := by
  rw [alKeys_upsert]
  split
  · exact h
  · next hk => simpa using List.Nodup.append h (by simp) (by simpa using hk)

theorem nodup_alSet {V : Type} {l : List (String × V)} (h : (alKeys l).Nodup)
    (k : String) (v : V) : (alKeys (alSet k v l)).Nodup := by
  rw [alKeys_alSet]
  split
  · exact h
  · next hk => simpa using List.Nodup.append h (by simp) (by simpa using hk)

theorem alGet_of_mem {V : Type} {l : List (String × V)} {k : String} {v : V}
    (h : (alKeys l).Nodup) (hm : (k, v) ∈ l) : alGet k l = some v := by
  induction l with
  | nil => cases hm
  | cons kv t ih =>
    obtain ⟨k', v'⟩ := kv
    simp only [alKeys, List.map_cons, List.nodup_cons] at h
    rcases List.mem_cons.1 hm with he | ht
    · cases he
      simp [alGet]
    · have hk : k' ≠ k := by
        rintro rfl
        exact h.1 (by simpa [alKeys] using List.mem_map_of_mem Prod.fst ht)
      simp [alGet, hk]
      exact ih h.2 ht

theorem mem_of_alGet {V : Type} {l : List (String × V)} {k : String} {v : V}
    (h : alGet k l = some v) : (k, v) ∈ l := by
  induction l with
  | nil => simp [alGet] at h
  | cons kv t ih =>
    obtain ⟨k', v'⟩ := kv
    by_cases hk : k' = k
    · subst hk
      simp [alGet] at h
      simp [h]
    · simp [alGet, hk] at h
      exact List.mem_cons_of_mem _ (ih h)

/-! ### Characterization of the row-loop accumulators -/

theorem stepRow_skip {s : AggState} {r : MatchRow} (h : ¬isProcessed r = true) :
    stepRow s r = s := by
  simp [stepRow, h]

theorem stepRow_proc {s : AggState} {r : MatchRow} (h : isProcessed r = true) :
    stepRow s r =
      { wl := wlStep s.wl r
        outcomes := outStep s.outcomes r
        three := threeStep s.three r
        mpr := mprStep s.mpr r
        parts := partsStep s.parts r
        names := nameStep s.names r
        perGT := gtStep s.perGT r } := by
  simp [stepRow, h]

theorem rowsOf_cons (p : String) (r : MatchRow) (rest : List MatchRow) :
    rowsOf p (r :: rest) =
      if isProcessed r && decide (pidOf r = p) then r :: rowsOf p rest
      else rowsOf p rest := by
  simp [rowsOf, List.filter_cons]

/-- The `outcomesMap` accumulator holds exactly the outcome sequence of each
player, in input order. -/
theorem outs_fold (p : String) (rows : List MatchRow) : ∀ s : AggState,
    (alGet p (rows.foldl stepRow s).outcomes).getD [] =
      (alGet p s.outcomes).getD [] ++ outsOf p rows := by
  induction rows with
  | nil => intro s; simp [outsOf, rowsOf]
  | cons r rest ih =>
    intro s
    rw [List.foldl_cons, ih (stepRow s r)]
    by_cases h : isProcessed r = true
    · rw [stepRow_proc h]
      by_cases hp : pidOf r = p
      · subst hp
        simp only [outStep, alGet_upsert_self]
        simp [outsOf, rowsOf_cons, h]
      · have hne : p ≠ pidOf r := fun hh => hp hh.symm
        simp only [outStep, alGet_upsert_ne hne]
        simp [outsOf, rowsOf_cons, h, hp]
    · rw [stepRow_skip h]
      simp [outsOf, rowsOf_cons, h]

/-- The `wlMap` accumulator counts wins, losses and games per player. -/
theorem wl_fold (p : String) (rows : List MatchRow) : ∀ s : AggState,
    (alGet p (rows.foldl stepRow s).wl).map wlTriple =
      match (alGet p s.wl).map wlTriple with
      | some (w, l, g) =>
        some (w + winsOf p rows, l + lossCountOf p rows, g + gamesOf p rows)
      | none =>
        if gamesOf p rows = 0 then none
        else some (winsOf p rows, lossCountOf p rows, gamesOf p rows) := by
  induction rows with
  | nil =>
    intro s
    cases ho : (alGet p s.wl).map wlTriple with
    | none => simp [gamesOf, winsOf, lossCountOf, rowsOf, ho]
    | some t => obtain ⟨w, l, g⟩ := t; simp [gamesOf, winsOf, lossCountOf, rowsOf, ho]
  | cons r rest ih =>
    intro s
    rw [List.foldl_cons, ih (stepRow s r)]
    by_cases h : isProcessed r = true
    · rw [stepRow_proc h]
      by_cases hp : pidOf r = p
      · subst hp
        have hup :
            alGet (pidOf r) (wlStep s.wl r) =
              some
                (let e :=
                  { (alGet (pidOf r) s.wl).getD ⟨pidOf r, dnameOf r, 0, 0, 0⟩ with
                      games := ((alGet (pidOf r) s.wl).getD ⟨pidOf r, dnameOf r, 0, 0, 0⟩).games + 1 }
                 if isWin r then { e with wins := e.wins + 1 }
                 else { e with losses := e.losses + 1 }) := by
          simpa [wlStep] using
            alGet_upsert_self (pidOf r)
              (⟨pidOf r, dnameOf r, 0, 0, 0⟩ : WLEntry)
              (fun e =>
                let e := { e with games := e.games + 1 }
                if isWin r then { e with wins := e.wins + 1 }
                else { e with losses := e.losses + 1 })
              s.wl
        cases ho : alGet (pidOf r) s.wl with
        | none =>
          simp only [ho, Option.getD_none] at hup
          by_cases hw : isWin r = true <;>
            simp [hup, ho, wlTriple, gamesOf, winsOf, lossCountOf, rowsOf_cons, h, hw,
              List.filter_cons, Nat.add_comm]
        | some e =>
          simp only [ho, Option.getD_some] at hup
          by_cases hw : isWin r = true <;>
            simp [hup, ho, wlTriple, gamesOf, winsOf, lossCountOf, rowsOf_cons, h, hw,
              List.filter_cons, Nat.add_assoc, Nat.add_comm, Nat.add_left_comm]
      · have hne : p ≠ pidOf r := fun hh => hp hh.symm
        simp only [wlStep, alGet_upsert_ne hne]
        simp [gamesOf, winsOf, lossCountOf, rowsOf_cons, h, hp]
    · rw [stepRow_skip h]
      simp [gamesOf, winsOf, lossCountOf, rowsOf_cons, h]

theorem x01Rows_cons (p : String) (r : MatchRow) (rest : List MatchRow) :
    x01Rows p (r :: rest) =
      if isProcessed r && decide (pidOf r = p) && isX01 r && r.score.isSome then
        r :: x01Rows p rest
      else x01Rows p rest := by
  simp [x01Rows, List.filter_cons]

theorem cricketRows_cons (p : String) (r : MatchRow) (rest : List MatchRow) :
    cricketRows p (r :: rest) =
      if isProcessed r && decide (pidOf r = p) && isCricket r && r.score.isSome then
        r :: cricketRows p rest
      else cricketRows p rest := by
  simp [cricketRows, List.filter_cons]

/-- The `threeMap` accumulator sums the scores of 501/301 rows with a present
score, per player. -/
theorem three_fold (p : String) (rows : List MatchRow) : ∀ s : AggState,
    (alGet p (rows.foldl stepRow s).three).map avgPair =
      match (alGet p s.three).map avgPair with
      | some (t, g) => some (t + x01Sum p rows, g + (x01Rows p rows).length)
      | none =>
        if (x01Rows p rows).length = 0 then none
        else some (x01Sum p rows, (x01Rows p rows).length) := by
  induction rows with
  | nil =>
    intro s
    cases ho : (alGet p s.three).map avgPair with
    | none => simp [x01Sum, x01Rows, ho]
    | some t => obtain ⟨t, g⟩ := t; simp [x01Sum, x01Rows, ho]
  | cons r rest ih =>
    intro s
    rw [List.foldl_cons, ih (stepRow s r)]
    by_cases h : isProcessed r = true
    · rw [stepRow_proc h]
      by_cases hx : (isX01 r && r.score.isSome) = true
      · by_cases hp : pidOf r = p
        · subst hp
          have hup :
              alGet (pidOf r) (threeStep s.three r) =
                some
                  { (alGet (pidOf r) s.three).getD ⟨pidOf r, dnameOf r, 0, 0⟩ with
                      total :=
                        ((alGet (pidOf r) s.three).getD ⟨pidOf r, dnameOf r, 0, 0⟩).total +
                          r.score.getD 0
                      games :=
                        ((alGet (pidOf r) s.three).getD ⟨pidOf r, dnameOf r, 0, 0⟩).games + 1 } := by
            simpa [threeStep, hx] using
              alGet_upsert_self (pidOf r) (⟨pidOf r, dnameOf r, 0, 0⟩ : AvgEntry)
                (fun e => { e with total := e.total + r.score.getD 0, games := e.games + 1 })
                s.three
          cases ho : alGet (pidOf r) s.three with
          | none =>
            simp only [ho, Option.getD_none] at hup
            simp [hup, ho, avgPair, x01Sum, x01Rows_cons, h, hx, add_comm]
          | some e =>
            simp only [ho, Option.getD_some] at hup
            simp [hup, ho, avgPair, x01Sum, x01Rows_cons, h, hx, add_assoc, add_comm,
              add_left_comm]
        · have hne : p ≠ pidOf r := fun hh => hp hh.symm
          simp only [threeStep, hx, if_true, alGet_upsert_ne hne]
          simp [x01Sum, x01Rows_cons, h, hx, hp]
      · have hstep : threeStep s.three r = s.three := by simp [threeStep, hx]
        rw [hstep]
        have hcond :
            (isProcessed r && decide (pidOf r = p) && isX01 r && r.score.isSome) = false := by
          cases hc : isX01 r <;> cases hd : r.score.isSome <;>
            simp [hc, hd] at hx ⊢
        simp [x01Sum, x01Rows_cons, hcond]
    · rw [stepRow_skip h]
      have hcond :
          (isProcessed r && decide (pidOf r = p) && isX01 r && r.score.isSome) = false := by
        simp [h]
      simp [x01Sum, x01Rows_cons, hcond]

/-- The `mprMap` accumulator sums the scores of Cricket rows with a present
score, per player. -/
theorem mpr_fold (p : String) (rows : List MatchRow) : ∀ s : AggState,
    (alGet p (rows.foldl stepRow s).mpr).map avgPair =
      match (alGet p s.mpr).map avgPair with
      | some (t, g) => some (t + cricketSum p rows, g + (cricketRows p rows).length)
      | none =>
        if (cricketRows p rows).length = 0 then none
        else some (cricketSum p rows, (cricketRows p rows).length) := by
  induction rows with
  | nil =>
    intro s
    cases ho : (alGet p s.mpr).map avgPair with
    | none => simp [cricketSum, cricketRows, ho]
    | some t => obtain ⟨t, g⟩ := t; simp [cricketSum, cricketRows, ho]
  | cons r rest ih =>
    intro s
    rw [List.foldl_cons, ih (stepRow s r)]
    by_cases h : isProcessed r = true
    · rw [stepRow_proc h]
      by_cases hx : (isCricket r && r.score.isSome) = true
      · by_cases hp : pidOf r = p
        · subst hp
          have hup :
              alGet (pidOf r) (mprStep s.mpr r) =
                some
                  { (alGet (pidOf r) s.mpr).getD ⟨pidOf r, dnameOf r, 0, 0⟩ with
                      total :=
                        ((alGet (pidOf r) s.mpr).getD ⟨pidOf r, dnameOf r, 0, 0⟩).total +
                          r.score.getD 0
                      games :=
                        ((alGet (pidOf r) s.mpr).getD ⟨pidOf r, dnameOf r, 0, 0⟩).games + 1 } := by
            simpa [mprStep, hx] using
              alGet_upsert_self (pidOf r) (⟨pidOf r, dnameOf r, 0, 0⟩ : AvgEntry)
                (fun e => { e with total := e.total + r.score.getD 0, games := e.games + 1 })
                s.mpr
          cases ho : alGet (pidOf r) s.mpr with
          | none =>
            simp only [ho, Option.getD_none] at hup
            simp [hup, ho, avgPair, cricketSum, cricketRows_cons, h, hx, add_comm]
          | some e =>
            simp only [ho, Option.getD_some] at hup
            simp [hup, ho, avgPair, cricketSum, cricketRows_cons, h, hx, add_assoc, add_comm,
              add_left_comm]
        · have hne : p ≠ pidOf r := fun hh => hp hh.symm
          simp only [mprStep, hx, if_true, alGet_upsert_ne hne]
          simp [cricketSum, cricketRows_cons, h, hx, hp]
      · have hstep : mprStep s.mpr r = s.mpr := by simp [mprStep, hx]
        rw [hstep]
        have hcond :
            (isProcessed r && decide (pidOf r = p) && isCricket r && r.score.isSome) = false := by
          cases hc : isCricket r <;> cases hd : r.score.isSome <;>
            simp [hc, hd] at hx ⊢
        simp [cricketSum, cricketRows_cons, hcond]
    · rw [stepRow_skip h]
      have hcond :
          (isProcessed r && decide (pidOf r = p) && isCricket r && r.score.isSome) = false := by
        simp [h]
      simp [cricketSum, cricketRows_cons, hcond]

theorem gtRowsOf_cons (p c : String) (r : MatchRow) (rest : List MatchRow) :
    gtRowsOf p c (r :: rest) =
      if isProcessed r && decide (pidOf r = p) && decide (labelOf r = c) then
        r :: gtRowsOf p c rest
      else gtRowsOf p c rest := by
  simp [gtRowsOf, List.filter_cons]

/-- The inner `perGameTypeMap` entries count wins, losses, games and collect
the outcome sequence of each player/category pair. -/
theorem gt_inner_fold (p c : String) (rows : List MatchRow) : ∀ s : AggState,
    alGet c ((alGet p (rows.foldl stepRow s).perGT).getD []) =
      match alGet c ((alGet p s.perGT).getD []) with
      | some e =>
        some
          ⟨e.wins + gtWinsOf p c rows, e.losses + gtLossOf p c rows,
            e.games + gtGamesOf p c rows, e.outcomes ++ gtOutsOf p c rows⟩
      | none =>
        if gtGamesOf p c rows = 0 then none
        else
          some
            ⟨gtWinsOf p c rows, gtLossOf p c rows, gtGamesOf p c rows,
              gtOutsOf p c rows⟩ := by
  induction rows with
  | nil =>
    intro s
    cases ho : alGet c ((alGet p s.perGT).getD []) with
    | none => simp [gtWinsOf, gtLossOf, gtGamesOf, gtOutsOf, gtRowsOf, ho]
    | some e => simp [gtWinsOf, gtLossOf, gtGamesOf, gtOutsOf, gtRowsOf, ho]
  | cons r rest ih =>
    intro s
    rw [List.foldl_cons, ih (stepRow s r)]
    by_cases h : isProcessed r = true
    · rw [stepRow_proc h]
      by_cases hp : pidOf r = p
      · subst hp
        have hup :
            alGet (pidOf r) (gtStep s.perGT r) =
              some
                (upsert (labelOf r) ⟨0, 0, 0, []⟩
                  (fun g =>
                    let g := { g with games := g.games + 1 }
                    let g :=
                      if isWin r then { g with wins := g.wins + 1 }
                      else { g with losses := g.losses + 1 }
                    { g with outcomes := g.outcomes ++ [⟨playedAtOf r, isWin r⟩] })
                  ((alGet (pidOf r) s.perGT).getD [])) := by
          simpa [gtStep] using
            alGet_upsert_self (pidOf r) ([] : List (String × GTEntry))
              (fun pm =>
                upsert (labelOf r) ⟨0, 0, 0, []⟩
                  (fun g =>
                    let g := { g with games := g.games + 1 }
                    let g :=
                      if isWin r then { g with wins := g.wins + 1 }
                      else { g with losses := g.losses + 1 }
                    { g with outcomes := g.outcomes ++ [⟨playedAtOf r, isWin r⟩] })
                  pm)
              s.perGT
        rw [hup, Option.getD_some]
        by_cases hc : labelOf r = c
        · subst hc
          rw [alGet_upsert_self]
          cases ho : alGet (labelOf r) ((alGet (pidOf r) s.perGT).getD []) with
          | none =>
            by_cases hw : isWin r = true <;>
              simp [ho, gtWinsOf, gtLossOf, gtGamesOf, gtOutsOf, gtRowsOf_cons, h, hw,
                List.filter_cons, Nat.add_comm]
          | some e =>
            by_cases hw : isWin r = true <;>
              simp [ho, gtWinsOf, gtLossOf, gtGamesOf, gtOutsOf, gtRowsOf_cons, h, hw,
                List.filter_cons, Nat.add_assoc, Nat.add_comm, Nat.add_left_comm]
        · have hne : c ≠ labelOf r := fun hh => hc hh.symm
          rw [alGet_upsert_ne hne]
          simp [gtWinsOf, gtLossOf, gtGamesOf, gtOutsOf, gtRowsOf_cons, h, hc]
      · have hne : p ≠ pidOf r := fun hh => hp hh.symm
        simp only [gtStep, alGet_upsert_ne hne]
        simp [gtWinsOf, gtLossOf, gtGamesOf, gtOutsOf, gtRowsOf_cons, h, hp]
    · rw [stepRow_skip h]
      simp [gtWinsOf, gtLossOf, gtGamesOf, gtOutsOf, gtRowsOf_cons, h]

/-- A player has a `perGameTypeMap` entry exactly when it has a processed row. -/
theorem gt_outer_fold (p : String) (rows : List MatchRow) : ∀ s : AggState,
    (alGet p (rows.foldl stepRow s).perGT).isSome =
      ((alGet p s.perGT).isSome || !(rowsOf p rows).isEmpty) := by
  induction rows with
  | nil => intro s; simp [rowsOf]
  | cons r rest ih =>
    intro s
    rw [List.foldl_cons, ih (stepRow s r)]
    by_cases h : isProcessed r = true
    · rw [stepRow_proc h]
      by_cases hp : pidOf r = p
      · subst hp
        simp only [gtStep, alGet_upsert_self]
        simp [rowsOf_cons, h]
      · have hne : p ≠ pidOf r := fun hh => hp hh.symm
        simp only [gtStep, alGet_upsert_ne hne]
        simp [rowsOf_cons, h, hp]
    · rw [stepRow_skip h]
      simp [rowsOf_cons, h]

/-! ### Invariant preservation -/

theorem upsert_forall {V : Type} {P : String → V → Prop} {l : List (String × V)}
    (hl : ∀ kv ∈ l, P kv.1 kv.2) (k : String) {d : V} {f : V → V}
    (hd : P k (f d)) (hf : ∀ v, P k v → P k (f v)) :
    ∀ kv ∈ upsert k d f l, P kv.1 kv.2 := by
  induction l with
  | nil =>
    intro kv hm
    simp [upsert] at hm
    subst hm
    exact hd
  | cons kv0 t ih =>
    obtain ⟨k', v⟩ := kv0
    have hl' : ∀ kv ∈ t, P kv.1 kv.2 := fun kv hm => hl kv (List.mem_cons_of_mem _ hm)
    by_cases h : k' = k
    · subst h
      intro kv hm
      simp only [upsert, if_pos rfl] at hm
      rcases List.mem_cons.1 hm with he | ht
      · subst he
        exact hf v (hl (k', v) (List.mem_cons_self _ _))
      · exact hl' _ ht
    · intro kv hm
      simp only [upsert, if_neg h] at hm
      rcases List.mem_cons.1 hm with he | ht
      · subst he
        exact hl (k', v) (List.mem_cons_self _ _)
      · exact ih hl' _ ht

theorem alSet_forall {V : Type} {P : String → V → Prop} {l : List (String × V)}
    (hl : ∀ kv ∈ l, P kv.1 kv.2) (k : String) {v : V} (hv : P k v) :
    ∀ kv ∈ alSet k v l, P kv.1 kv.2 := by
  induction l with
  | nil =>
    intro kv hm
    simp [alSet] at hm
    subst hm
    exact hv
  | cons kv0 t ih =>
    obtain ⟨k', v'⟩ := kv0
    have hl' : ∀ kv ∈ t, P kv.1 kv.2 := fun kv hm => hl kv (List.mem_cons_of_mem _ hm)
    by_cases h : k' = k
    · subst h
      intro kv hm
      simp only [alSet, if_pos rfl] at hm
      rcases List.mem_cons.1 hm with he | ht
      · subst he
        exact hv
      · exact hl' _ ht
    · intro kv hm
      simp only [alSet, if_neg h] at hm
      rcases List.mem_cons.1 hm with he | ht
      · subst he
        exact hl (k', v') (List.mem_cons_self _ _)
      · exact ih hl' _ ht

theorem wl_nodup (rows : List MatchRow) : ∀ s : AggState,
    (alKeys s.wl).Nodup → (alKeys (rows.foldl stepRow s).wl).Nodup := by
  induction rows with
  | nil => intro s h; exact h
  | cons r rest ih =>
    intro s h
    rw [List.foldl_cons]
    apply ih
    by_cases hp : isProcessed r = true
    · rw [stepRow_proc hp]
      exact nodup_upsert h _ _ _
    · rw [stepRow_skip hp]
      exact h

theorem three_nodup (rows : List MatchRow) : ∀ s : AggState,
    (alKeys s.three).Nodup → (alKeys (rows.foldl stepRow s).three).Nodup := by
  induction rows with
  | nil => intro s h; exact h
  | cons r rest ih =>
    intro s h
    rw [List.foldl_cons]
    apply ih
    by_cases hp : isProcessed r = true
    · rw [stepRow_proc hp]
      by_cases hx : (isX01 r && r.score.isSome) = true
      · simpa [threeStep, hx] using nodup_upsert h (pidOf r) _ _
      · simpa [threeStep, hx] using h
    · rw [stepRow_skip hp]
      exact h

theorem mpr_nodup (rows : List MatchRow) : ∀ s : AggState,
    (alKeys s.mpr).Nodup → (alKeys (rows.foldl stepRow s).mpr).Nodup := by
  induction rows with
  | nil => intro s h; exact h
  | cons r rest ih =>
    intro s h
    rw [List.foldl_cons]
    apply ih
    by_cases hp : isProcessed r = true
    · rw [stepRow_proc hp]
      by_cases hx : (isCricket r && r.score.isSome) = true
      · simpa [mprStep, hx] using nodup_upsert h (pidOf r) _ _
      · simpa [mprStep, hx] using h
    · rw [stepRow_skip hp]
      exact h

theorem wl_inv (rows : List MatchRow) : ∀ s : AggState,
    (∀ kv ∈ s.wl, wlInv kv.1 kv.2) →
    ∀ kv ∈ (rows.foldl stepRow s).wl, wlInv kv.1 kv.2 := by
  induction rows with
  | nil => intro s h; exact h
  | cons r rest ih =>
    intro s h
    rw [List.foldl_cons]
    apply ih
    by_cases hp : isProcessed r = true
    · rw [stepRow_proc hp]
      intro kv hm
      simp only [wlStep] at hm
      refine upsert_forall h (pidOf r) ?_ ?_ kv hm
      · by_cases hw : isWin r = true <;> simp [wlInv, hw]
      · intro v hv
        obtain ⟨hv1, hv2⟩ := hv
        by_cases hw : isWin r = true <;> simp [wlInv, hw, hv1] <;> omega
    · rw [stepRow_skip hp]
      exact h

theorem three_inv (rows : List MatchRow) : ∀ s : AggState,
    (∀ kv ∈ s.three, avgInv kv.1 kv.2) →
    ∀ kv ∈ (rows.foldl stepRow s).three, avgInv kv.1 kv.2 := by
  induction rows with
  | nil => intro s h; exact h
  | cons r rest ih =>
    intro s h
    rw [List.foldl_cons]
    apply ih
    by_cases hp : isProcessed r = true
    · rw [stepRow_proc hp]
      intro kv hm
      by_cases hx : (isX01 r && r.score.isSome) = true
      · simp only [threeStep, hx, if_true] at hm
        refine upsert_forall h (pidOf r) ?_ ?_ kv hm
        · simp [avgInv]
        · intro v hv
          simpa [avgInv] using hv
      · simp only [threeStep, hx] at hm
        exact h kv (by simpa using hm)
    · rw [stepRow_skip hp]
      exact h

theorem mpr_inv (rows : List MatchRow) : ∀ s : AggState,
    (∀ kv ∈ s.mpr, avgInv kv.1 kv.2) →
    ∀ kv ∈ (rows.foldl stepRow s).mpr, avgInv kv.1 kv.2 := by
  induction rows with
  | nil => intro s h; exact h
  | cons r rest ih =>
    intro s h
    rw [List.foldl_cons]
    apply ih
    by_cases hp : isProcessed r = true
    · rw [stepRow_proc hp]
      intro kv hm
      by_cases hx : (isCricket r && r.score.isSome) = true
      · simp only [mprStep, hx, if_true] at hm
        refine upsert_forall h (pidOf r) ?_ ?_ kv hm
        · simp [avgInv]
        · intro v hv
          simpa [avgInv] using hv
      · simp only [mprStep, hx] at hm
        exact h kv (by simpa using hm)
    · rw [stepRow_skip hp]
      exact h

/-! ### The streak and rolling-window algorithms -/

theorem length_filter_split {α : Type} (f : α → Bool) (l : List α) :
    (l.filter f).length + (l.filter (fun x => !f x)).length = l.length := by
  induction l with
  | nil => rfl
  | cons o t ih => cases hw : f o <;> simp [List.filter_cons, hw] <;> omega

theorem streakAux_eq (ty : Bool) (l : List Outcome) : ∀ cnt : Nat,
    streakAux ty cnt l = cnt + (l.takeWhile (fun o => o.isWin == ty)).length := by
  induction l with
  | nil => intro cnt; simp [streakAux]
  | cons o rest ih =>
    intro cnt
    by_cases hw : o.isWin = ty
    · simp [streakAux, hw, List.takeWhile_cons, ih]
      omega
    · simp [streakAux, hw, List.takeWhile_cons]

/-- The backward streak loop computes exactly the specification's streak. -/
theorem computeStreak_eq_spec (l : List Outcome) : computeStreak l = specStreak l := by
  cases hrev : l.reverse with
  | nil =>
    have hl : l = [] := by simpa using congrArg List.reverse hrev
    subst hl
    rfl
  | cons o rest =>
    have hlast : l.getLast? = some o := by
      rw [← List.head?_reverse, hrev]
      rfl
    simp only [computeStreak, hrev, specStreak, hlast, streakAux_eq]
    simp [List.takeWhile_cons, Nat.add_comm]

/-- The `slice(-k)` record computes exactly the specification's record. -/
theorem recordOf_eq_spec (k : Nat) (l : List Outcome) : recordOf k l = specRecord k l := by
  have h := length_filter_split (fun o => o.isWin) (l.drop (l.length - k))
  have h2 :
      (l.drop (l.length - k)).length -
          ((l.drop (l.length - k)).filter (fun o => o.isWin)).length =
        ((l.drop (l.length - k)).filter (fun o => !o.isWin)).length := by
    omega
  simp only [recordOf, specRecord, lastWindow]
  rw [h2]

/-! ### The output comparator -/

/-- The comparator relation coincides with the claimed descending
lexicographic ordering. -/
theorem wlOrder_iff_desc (a b : WinLossStats) : wlOrder a b ↔ wlDescending a b := by
  unfold wlOrder wlDescending
  by_cases h1 : a.winPct = b.winPct
  · rw [if_pos h1]
    by_cases h2 : a.wins = b.wins
    · rw [if_pos h2]
      simp [h1, h2]
    · rw [if_neg h2]
      have h2' : ¬b.wins = a.wins := fun hh => h2 hh.symm
      simp only [h1, lt_self_iff_false, false_or, true_and, h2', false_and, or_false]
      omega
  · rw [if_neg h1]
    have h1' : b.winPct ≠ a.winPct := fun hh => h1 hh.symm
    simp only [h1', false_and, or_false]
    exact ⟨fun hle => lt_of_le_of_ne hle h1', le_of_lt⟩

theorem wlOrder_isTrans : IsTrans WinLossStats wlOrder :=
  ⟨by
    intro a b c hab hbc
    rw [wlOrder_iff_desc] at hab hbc ⊢
    rcases hab with h1 | ⟨h1, h2⟩ <;> rcases hbc with g1 | ⟨g1, g2⟩
    · exact Or.inl (lt_trans g1 h1)
    · exact Or.inl (by rw [g1]; exact h1)
    · exact Or.inl (by rw [← h1]; exact g1)
    · refine Or.inr ⟨g1.trans h1, ?_⟩
      rcases h2 with h2 | ⟨h2a, h2b⟩ <;> rcases g2 with g2 | ⟨g2a, g2b⟩ <;> omega⟩

theorem wlOrder_isTotal : IsTotal WinLossStats wlOrder :=
  ⟨by
    intro a b
    rw [wlOrder_iff_desc, wlOrder_iff_desc]
    rcases lt_trichotomy a.winPct b.winPct with h | h | h
    · exact Or.inr (Or.inl h)
    · unfold wlDescending
      rcases Nat.lt_trichotomy a.wins b.wins with hw | hw | hw
      · exact Or.inr (Or.inr ⟨h, Or.inl hw⟩)
      · rcases Nat.le_total b.games a.games with hg | hg
        · exact Or.inl (Or.inr ⟨h.symm, Or.inr ⟨hw.symm, hg⟩⟩)
        · exact Or.inr (Or.inr ⟨h, Or.inr ⟨hw, hg⟩⟩)
      · exact Or.inl (Or.inr ⟨h.symm, Or.inl hw⟩)
    · exact Or.inl (Or.inl h)⟩

/-! ### Component independence -/

/-- The win/loss accumulator depends only on its own component of the state. -/
theorem wl_component (rows : List MatchRow) : ∀ s : AggState,
    (rows.foldl stepRow s).wl =
      rows.foldl (fun m r => if isProcessed r = true then wlStep m r else m) s.wl := by
  induction rows with
  | nil => intro s; rfl
  | cons r rest ih =>
    intro s
    rw [List.foldl_cons, List.foldl_cons, ih]
    by_cases h : isProcessed r = true
    · rw [stepRow_proc h, if_pos h]
    · rw [stepRow_skip h, if_neg h]

/-- The outcomes accumulator depends only on its own component of the state. -/
theorem outcomes_component (rows : List MatchRow) : ∀ s : AggState,
    (rows.foldl stepRow s).outcomes =
      rows.foldl (fun m r => if isProcessed r = true then outStep m r else m) s.outcomes := by
  induction rows with
  | nil => intro s; rfl
  | cons r rest ih =>
    intro s
    rw [List.foldl_cons, List.foldl_cons, ih]
    by_cases h : isProcessed r = true
    · rw [stepRow_proc h, if_pos h]
    · rw [stepRow_skip h, if_neg h]

/-- Forgetting scores changes neither the win/loss accumulator nor the
outcome sequences, so the overall leaderboard ignores scores entirely. -/
theorem wlList_eraseScore (rows : List MatchRow) :
    wlList (rows.map eraseScore) = wlList rows := by
  have h1 : (processRows (rows.map eraseScore)).wl = (processRows rows).wl := by
    unfold processRows
    rw [wl_component, wl_component, List.foldl_map]
    rfl
  have h2 : (processRows (rows.map eraseScore)).outcomes = (processRows rows).outcomes := by
    unfold processRows
    rw [outcomes_component, outcomes_component, List.foldl_map]
    rfl
  simp only [wlList, h1, h2]

theorem isWin_normWinner (r : MatchRow) : isWin (normWinner r) = isWin r := by
  show
    (match (some (isWin r) : Option Bool) with
      | some true => true
      | _ => false) = isWin r
  cases hb : isWin r <;> rfl

/-- Normalizing an absent winner flag to an explicit `false` does not change
one loop iteration. -/
theorem stepRow_normWinner (s : AggState) (r : MatchRow) :
    stepRow s (normWinner r) = stepRow s r := by
  have hpid : pidOf (normWinner r) = pidOf r := rfl
  have hdn : dnameOf (normWinner r) = dnameOf r := rfl
  have hpa : playedAtOf (normWinner r) = playedAtOf r := rfl
  have hmid : (normWinner r).match_id = r.match_id := rfl
  have hsc : (normWinner r).score = r.score := rfl
  have hproc : isProcessed (normWinner r) = isProcessed r := rfl
  have hx : isX01 (normWinner r) = isX01 r := rfl
  have hck : isCricket (normWinner r) = isCricket r := rfl
  have hlab : labelOf (normWinner r) = labelOf r := rfl
  simp only [stepRow, wlStep, outStep, threeStep, mprStep, partsStep, nameStep, gtStep,
    hpid, hdn, hpa, hmid, hsc, hproc, hx, hck, hlab, isWin_normWinner]

/-- Normalizing absent winner flags to explicit `false` does not change the
whole accumulation. -/
theorem processRows_normWinner (rows : List MatchRow) :
    processRows (rows.map normWinner) = processRows rows := by
  unfold processRows
  rw [List.foldl_map]
  have hf : (fun (s : AggState) (r : MatchRow) => stepRow s (normWinner r)) = stepRow :=
    funext fun s => funext fun r => stepRow_normWinner s r
  rw [hf]

/-- A row with a falsy `player_id` is skipped: removing it from anywhere in
the input leaves the whole accumulation unchanged. -/
theorem processRows_skip {r : MatchRow} (h : ¬isProcessed r = true)
    (pre post : List MatchRow) :
    processRows (pre ++ r :: post) = processRows (pre ++ post) := by
  unfold processRows
  rw [List.foldl_append, List.foldl_append, List.foldl_cons, stepRow_skip h]

/-! ### Decomposing the finished outputs -/

theorem mem_wlList {rows : List MatchRow} {e : WinLossStats} (h : e ∈ wlList rows) :
    ∃ kv ∈ (processRows rows).wl, e = mkWinLoss (processRows rows).outcomes kv.2 := by
  simp only [wlList, List.mem_insertionSort, List.mem_map] at h
  obtain ⟨wle, ⟨kv, hkv, hsnd⟩, heq⟩ := h
  exact ⟨kv, hkv, by rw [← heq, ← hsnd]⟩

theorem mem_finalizeAvg {m : List (String × AvgEntry)} {e : AverageStats}
    (h : e ∈ finalizeAvg m) :
    ∃ kv ∈ m,
      e =
        (⟨kv.2.playerId, kv.2.displayName,
          if kv.2.games > 0 then kv.2.total / (kv.2.games : ℚ) else 0, kv.2.games⟩ :
          AverageStats) := by
  simp only [finalizeAvg, List.mem_insertionSort, List.mem_filter, List.mem_map] at h
  obtain ⟨⟨ae, ⟨kv, hkv, hsnd⟩, heq⟩, _⟩ := h
  exact ⟨kv, hkv, by rw [← heq, ← hsnd]⟩

/-- Every `wlMap` entry of the processed state carries the counts of its
player's processed rows; in particular its player has at least one row. -/
theorem wlEntry_facts {rows : List MatchRow} {kv : String × WLEntry}
    (h : kv ∈ (processRows rows).wl) :
    kv.2.playerId = kv.1 ∧ kv.2.wins = winsOf kv.1 rows ∧
      kv.2.losses = lossCountOf kv.1 rows ∧ kv.2.games = gamesOf kv.1 rows ∧
      gamesOf kv.1 rows ≠ 0 := by
  have hinv :=
    wl_inv rows initState (by intro kv hm; simp [initState] at hm) kv h
  have hnd : (alKeys (processRows rows).wl).Nodup :=
    wl_nodup rows initState (by simp [initState, alKeys])
  have hget : alGet kv.1 (processRows rows).wl = some kv.2 :=
    alGet_of_mem hnd (by rwa [Prod.mk.eta])
  have hfold := wl_fold kv.1 rows initState
  have hnone : alGet kv.1 initState.wl = none := rfl
  rw [hnone] at hfold
  have hfold' :
      (alGet kv.1 (processRows rows).wl).map wlTriple =
        if gamesOf kv.1 rows = 0 then none
        else some (winsOf kv.1 rows, lossCountOf kv.1 rows, gamesOf kv.1 rows) := hfold
  rw [hget] at hfold'
  by_cases hz : gamesOf kv.1 rows = 0
  · rw [if_pos hz] at hfold'
    simp at hfold'
  · rw [if_neg hz] at hfold'
    rw [Option.map_some'] at hfold'
    have ht := Option.some.inj hfold'
    unfold wlTriple at ht
    rw [Prod.mk.injEq, Prod.mk.injEq] at ht
    obtain ⟨h1, h2, h3⟩ := ht
    exact ⟨hinv.1, h1, h2, h3, hz⟩

/-- Every `threeMap` entry carries its player's qualifying sum and count, and
its player has at least one qualifying row. -/
theorem threeEntry_facts {rows : List MatchRow} {kv : String × AvgEntry}
    (h : kv ∈ (processRows rows).three) :
    kv.2.playerId = kv.1 ∧ kv.2.total = x01Sum kv.1 rows ∧
      kv.2.games = (x01Rows kv.1 rows).length ∧ (x01Rows kv.1 rows).length ≠ 0 := by
  have hinv :=
    three_inv rows initState (by intro kv hm; simp [initState] at hm) kv h
  have hnd : (alKeys (processRows rows).three).Nodup :=
    three_nodup rows initState (by simp [initState, alKeys])
  have hget : alGet kv.1 (processRows rows).three = some kv.2 :=
    alGet_of_mem hnd (by rwa [Prod.mk.eta])
  have hfold := three_fold kv.1 rows initState
  have hnone : alGet kv.1 initState.three = none := rfl
  rw [hnone] at hfold
  have hfold' :
      (alGet kv.1 (processRows rows).three).map avgPair =
        if (x01Rows kv.1 rows).length = 0 then none
        else some (x01Sum kv.1 rows, (x01Rows kv.1 rows).length) := hfold
  rw [hget] at hfold'
  by_cases hz : (x01Rows kv.1 rows).length = 0
  · rw [if_pos hz] at hfold'
    simp at hfold'
  · rw [if_neg hz] at hfold'
    rw [Option.map_some'] at hfold'
    have ht := Option.some.inj hfold'
    unfold avgPair at ht
    exact ⟨hinv, by simp_all, by simp_all, hz⟩

/-- Every `mprMap` entry carries its player's qualifying sum and count, and
its player has at least one qualifying row. -/
theorem mprEntry_facts {rows : List MatchRow} {kv : String × AvgEntry}
    (h : kv ∈ (processRows rows).mpr) :
    kv.2.playerId = kv.1 ∧ kv.2.total = cricketSum kv.1 rows ∧
      kv.2.games = (cricketRows kv.1 rows).length ∧ (cricketRows kv.1 rows).length ≠ 0 := by
  have hinv :=
    mpr_inv rows initState (by intro kv hm; simp [initState] at hm) kv h
  have hnd : (alKeys (processRows rows).mpr).Nodup :=
    mpr_nodup rows initState (by simp [initState, alKeys])
  have hget : alGet kv.1 (processRows rows).mpr = some kv.2 :=
    alGet_of_mem hnd (by rwa [Prod.mk.eta])
  have hfold := mpr_fold kv.1 rows initState
  have hnone : alGet kv.1 initState.mpr = none := rfl
  rw [hnone] at hfold
  have hfold' :
      (alGet kv.1 (processRows rows).mpr).map avgPair =
        if (cricketRows kv.1 rows).length = 0 then none
        else some (cricketSum kv.1 rows, (cricketRows kv.1 rows).length) := hfold
  rw [hget] at hfold'
  by_cases hz : (cricketRows kv.1 rows).length = 0
  · rw [if_pos hz] at hfold'
    simp at hfold'
  · rw [if_neg hz] at hfold'
    rw [Option.map_some'] at hfold'
    have ht := Option.some.inj hfold'
    unfold avgPair at ht
    exact ⟨hinv, by simp_all, by simp_all, hz⟩

/-- The outcome sequence fetched during finalization is exactly the player's
outcome sequence of the input rows. -/
theorem outcomes_of_processRows (p : String) (rows : List MatchRow) :
    (alGet p (processRows rows).outcomes).getD [] = outsOf p rows := by
  have h := outs_fold p rows initState
  have hnone : alGet p initState.outcomes = none := rfl
  rw [hnone] at h
  simpa using h

theorem length_sortChron (l : List Outcome) : (sortChron l).length = l.length :=
  (List.perm_insertionSort _ _).length_eq

theorem length_outsOf (p : String) (rows : List MatchRow) :
    (outsOf p rows).length = gamesOf p rows := by
  simp [outsOf, gamesOf]

theorem lastWindow_counts (k : Nat) (l : List Outcome) :
    ((lastWindow k l).filter (fun o => o.isWin)).length +
      ((lastWindow k l).filter (fun o => !o.isWin)).length = min k l.length := by
  rw [length_filter_split]
  unfold lastWindow
  rw [List.length_drop]
  omega

/-! ### The claims -/

/-- C1: for every player the streak string is the outcome letter of the
chronologically last game followed by the length of the trailing run of
identical outcomes, scanning backward and stopping at the first mismatch;
an empty sequence produces an empty streak.  This holds for the shared
`summarizeOutcomes` helper (used by the head-to-head and per-game-type
views) and for the inline computation of the overall leaderboard. -/
theorem claim_C1_streak :
    (∀ outcomes : List Outcome,
        (summarizeOutcomes outcomes).streak = specStreak (sortChron outcomes)) ∧
      (∀ rows : List MatchRow,
          ((wlList rows).all fun e =>
              e.streak == specStreak (sortChron (outsOf e.playerId rows))) = true) ∧
      specStreak [] = "" := by
  refine ⟨?_, ?_, rfl⟩
  · intro outcomes
    cases outcomes with
    | nil => rfl
    | cons o t =>
      simp only [summarizeOutcomes, List.isEmpty_cons, Bool.false_eq_true, if_false]
      exact computeStreak_eq_spec (sortChron (o :: t))
  · intro rows
    rw [List.all_eq_true]
    intro e he
    obtain ⟨kv, hkv, rfl⟩ := mem_wlList he
    rw [beq_iff_eq]
    simp only [mkWinLoss]
    rw [outcomes_of_processRows]
    cases houts : outsOf kv.2.playerId rows with
    | nil => rfl
    | cons o t =>
      simp only [List.isEmpty_cons, Bool.false_eq_true, if_false]
      exact computeStreak_eq_spec (sortChron (o :: t))

/-- C3: every rolling-window record is formed from the last `k` entries of
the player's chronologically ordered outcomes (`k` = 5 and 10; fewer when
fewer games exist), counting wins and losses among them and formatting
`"<wins>-<losses>"`; wins plus losses in the window never exceeds
`min k games`. -/
theorem claim_C3_rolling :
    ∀ rows : List MatchRow,
      ((wlList rows).all fun e =>
          (e.last5 == specRecord 5 (sortChron (outsOf e.playerId rows))) &&
            (e.last10 == specRecord 10 (sortChron (outsOf e.playerId rows))) &&
            decide
              (((lastWindow 5 (sortChron (outsOf e.playerId rows))).filter
                      (fun o => o.isWin)).length +
                  ((lastWindow 5 (sortChron (outsOf e.playerId rows))).filter
                      (fun o => !o.isWin)).length ≤
                min 5 e.games) &&
            decide
              (((lastWindow 10 (sortChron (outsOf e.playerId rows))).filter
                      (fun o => o.isWin)).length +
                  ((lastWindow 10 (sortChron (outsOf e.playerId rows))).filter
                      (fun o => !o.isWin)).length ≤
                min 10 e.games)) = true := by
  intro rows
  rw [List.all_eq_true]
  intro e he
  obtain ⟨kv, hkv, rfl⟩ := mem_wlList he
  obtain ⟨hpid, hw, hl, hg, hne⟩ := wlEntry_facts hkv
  simp only [mkWinLoss]
  rw [outcomes_of_processRows]
  simp only [hpid]
  have houtlen : (outsOf kv.1 rows).length = gamesOf kv.1 rows := length_outsOf kv.1 rows
  have houtne : outsOf kv.1 rows ≠ [] := by
    intro hnil
    rw [hnil] at houtlen
    exact hne (by simpa using houtlen.symm)
  have hbound : ∀ k : Nat,
      ((lastWindow k (sortChron (outsOf kv.1 rows))).filter (fun o => o.isWin)).length +
          ((lastWindow k (sortChron (outsOf kv.1 rows))).filter (fun o => !o.isWin)).length ≤
        min k kv.2.games := by
    intro k
    rw [lastWindow_counts, length_sortChron, houtlen, hg]
  cases houts : outsOf kv.1 rows with
  | nil => exact absurd houts houtne
  | cons o t =>
    rw [houts] at hbound
    simp only [List.isEmpty_cons, Bool.false_eq_true, if_false, Bool.and_eq_true,
      beq_iff_eq, decide_eq_true_eq]
    exact ⟨⟨⟨recordOf_eq_spec 5 _, recordOf_eq_spec 10 _⟩, hbound 5⟩, hbound 10⟩

/-- C6: in the overall, per-game-type and head-to-head outputs, wins plus
losses always equals games. -/
theorem claim_C6_wins_losses_games :
    ∀ (rows : List MatchRow) (p : String),
      (((wlList rows).all fun e => decide (e.wins + e.losses = e.games)) = true) ∧
        (((gameTypeStats rows p).all fun e => decide (e.wins + e.losses = e.games)) = true) ∧
        (((headToHeadStats rows p).all fun e => decide (e.wins + e.losses = e.games)) = true) := by
  intro rows p
  refine ⟨?_, ?_, ?_⟩
  · rw [List.all_eq_true]
    intro e he
    obtain ⟨kv, hkv, rfl⟩ := mem_wlList he
    obtain ⟨_, hw, hl, hg, _⟩ := wlEntry_facts hkv
    simp only [mkWinLoss, decide_eq_true_eq]
    rw [hw, hl, hg]
    unfold winsOf lossCountOf gamesOf
    exact length_filter_split (fun r => isWin r) (rowsOf kv.1 rows)
  · rw [List.all_eq_true]
    intro e he
    cases halg : alGet p (processRows rows).perGT with
    | none => simp [gameTypeStats, halg] at he
    | some pm =>
      simp only [gameTypeStats, halg] at he
      rw [List.mem_map] at he
      obtain ⟨t, _, rfl⟩ := he
      have hinner0 := gt_inner_fold p t rows initState
      have hinner :
          alGet t ((alGet p (processRows rows).perGT).getD []) =
            if gtGamesOf p t rows = 0 then none
            else
              some
                ⟨gtWinsOf p t rows, gtLossOf p t rows, gtGamesOf p t rows,
                  gtOutsOf p t rows⟩ := hinner0
      rw [halg, Option.getD_some] at hinner
      simp only [decide_eq_true_eq]
      by_cases hz : gtGamesOf p t rows = 0
      · rw [if_pos hz] at hinner
        simp [hinner]
      · rw [if_neg hz] at hinner
        simp only [hinner]
        exact length_filter_split (fun r => isWin r) (gtRowsOf p t rows)
  · rw [List.all_eq_true]
    intro e he
    cases halg : alGet p (buildHead (processRows rows).parts) with
    | none => simp [headToHeadStats, halg] at he
    | some om =>
      simp only [headToHeadStats, halg, List.mem_insertionSort, List.mem_map] at he
      obtain ⟨kv, _, rfl⟩ := he
      simp only [decide_eq_true_eq]
      have hle :
          ((sortChron kv.2.outcomes).filter (fun o => o.isWin)).length ≤
            (sortChron kv.2.outcomes).length :=
        List.length_filter_le _ _
      omega

/-- C8: every produced record's win percentage is `wins / games * 100` when
`games > 0` and `0` when `games = 0`; the division is always guarded. -/
theorem claim_C8_winpct :
    ∀ (rows : List MatchRow) (p : String),
      (((wlList rows).all fun e =>
            decide (e.winPct = if e.games = 0 then 0 else ((e.wins : ℚ) / (e.games : ℚ)) * 100)) =
          true) ∧
        (((gameTypeStats rows p).all fun e =>
              decide
                (e.winPct = if e.games = 0 then 0 else ((e.wins : ℚ) / (e.games : ℚ)) * 100)) =
            true) ∧
        (((headToHeadStats rows p).all fun e =>
              decide
                (e.winPct = if e.games = 0 then 0 else ((e.wins : ℚ) / (e.games : ℚ)) * 100)) =
            true) := by
  intro rows p
  refine ⟨?_, ?_, ?_⟩
  · rw [List.all_eq_true]
    intro e he
    obtain ⟨kv, hkv, rfl⟩ := mem_wlList he
    simp only [mkWinLoss, decide_eq_true_eq]
    by_cases hz : kv.2.games = 0 <;> simp [hz]
  · rw [List.all_eq_true]
    intro e he
    cases halg : alGet p (processRows rows).perGT with
    | none => simp [gameTypeStats, halg] at he
    | some pm =>
      simp only [gameTypeStats, halg] at he
      rw [List.mem_map] at he
      obtain ⟨t, _, rfl⟩ := he
      simp only [decide_eq_true_eq]
      by_cases hz : ((alGet t pm).getD ⟨0, 0, 0, []⟩).games = 0 <;> simp [hz]
  · rw [List.all_eq_true]
    intro e he
    cases halg : alGet p (buildHead (processRows rows).parts) with
    | none => simp [headToHeadStats, halg] at he
    | some om =>
      simp only [headToHeadStats, halg, List.mem_insertionSort, List.mem_map] at he
      obtain ⟨kv, _, rfl⟩ := he
      simp only [decide_eq_true_eq]
      by_cases hz : (sortChron kv.2.outcomes).length = 0 <;> simp [hz]

/-- C9: the overall leaderboard is sorted descending by win percentage, ties
broken by descending win count, remaining ties by descending games played. -/
theorem claim_C9_ordering :
    ∀ rows : List MatchRow, List.Pairwise wlDescending (wlList rows) := by
  intro rows
  haveI := wlOrder_isTrans
  haveI := wlOrder_isTotal
  have h :=
    List.sorted_insertionSort wlOrder
      (((processRows rows).wl.map Prod.snd).map (mkWinLoss (processRows rows).outcomes))
  exact List.Pairwise.imp (fun hab => (wlOrder_iff_desc _ _).mp hab) h

theorem isWin_eq_beq (r : MatchRow) : isWin r = (r.is_winner == some true) := by
  unfold isWin
  cases r.is_winner with
  | none => rfl
  | some b => cases b <;> rfl

/-- C10: a row counts as a win only when `is_winner` is exactly `true`; an
absent (`null`) flag is handled exactly like `false` — the row is still
processed and contributes a loss, in every aggregation. -/
theorem claim_C10_null_is_loss :
    ∀ rows : List MatchRow,
      processRows (rows.map normWinner) = processRows rows ∧
        wlList (rows.map normWinner) = wlList rows ∧
        (((wlList rows).all fun e =>
              decide
                (e.losses =
                  ((rowsOf e.playerId rows).filter
                      (fun r => !(r.is_winner == some true))).length)) =
            true) := by
  intro rows
  have hproc := processRows_normWinner rows
  refine ⟨hproc, by simp only [wlList, hproc], ?_⟩
  rw [List.all_eq_true]
  intro e he
  obtain ⟨kv, hkv, rfl⟩ := mem_wlList he
  obtain ⟨hpid, _, hl, _, _⟩ := wlEntry_facts hkv
  simp only [mkWinLoss, decide_eq_true_eq, hpid]
  rw [hl]
  unfold lossCountOf
  have hfun :
      (fun r : MatchRow => !(r.is_winner == some true)) = fun r : MatchRow => !isWin r := by
    funext r
    rw [isWin_eq_beq]
  rw [hfun]

/-- C2: each category average equals the sum of the player's present scores
over qualifying rows (501/301 for the 3-dart average, Cricket for MPR)
divided by the number of such rows; rows without a score are skipped for
averaging while the overall leaderboard ignores scores entirely; and a
player with zero qualifying rows does not appear in the averages output. -/
theorem claim_C2_category_averages :
    ∀ rows : List MatchRow,
      (((threeList rows).all fun e =>
            decide (e.games = (x01Rows e.playerId rows).length) && decide (e.games ≠ 0) &&
              decide (e.avg = x01Sum e.playerId rows / ((x01Rows e.playerId rows).length : ℚ))) =
          true) ∧
        (((mprList rows).all fun e =>
              decide (e.games = (cricketRows e.playerId rows).length) && decide (e.games ≠ 0) &&
                decide
                  (e.avg =
                    cricketSum e.playerId rows / ((cricketRows e.playerId rows).length : ℚ))) =
            true) ∧
        wlList (rows.map eraseScore) = wlList rows := by
  intro rows
  refine ⟨?_, ?_, wlList_eraseScore rows⟩
  · rw [List.all_eq_true]
    intro e he
    obtain ⟨kv, hkv, rfl⟩ := mem_finalizeAvg he
    obtain ⟨hpid, ht, hg, hne⟩ := threeEntry_facts hkv
    simp only [Bool.and_eq_true, decide_eq_true_eq, hpid]
    have hpos : kv.2.games > 0 := by omega
    refine ⟨⟨hg, by omega⟩, ?_⟩
    rw [if_pos hpos, ht, hg]
  · rw [List.all_eq_true]
    intro e he
    obtain ⟨kv, hkv, rfl⟩ := mem_finalizeAvg he
    obtain ⟨hpid, ht, hg, hne⟩ := mprEntry_facts hkv
    simp only [Bool.and_eq_true, decide_eq_true_eq, hpid]
    have hpos : kv.2.games > 0 := by omega
    refine ⟨⟨hg, by omega⟩, ?_⟩
    rw [if_pos hpos, ht, hg]

/-- C5: the per-player game-type breakdown always lists every category of the
fixed order Cricket, 501, 301, Other — also those in which the selected
player (who has at least one processed row) has zero games — and a
zero-games category row has zero wins, losses, games and win percentage and
empty streak and window strings. -/
theorem claim_C5_zero_category :
    ∀ (rows : List MatchRow) (p c : String),
      rowsOf p rows ≠ [] → c ∈ GAME_TYPE_ORDER → gtRowsOf p c rows = [] →
      (gameTypeStats rows p).map (fun e => e.type) = GAME_TYPE_ORDER ∧
        (⟨c, 0, 0, 0, 0, "", "", ""⟩ : GameTypeStatsRow) ∈ gameTypeStats rows p := by
  intro rows p c hne hc hz
  have hsome :
      (alGet p (processRows rows).perGT).isSome =
        ((alGet p initState.perGT).isSome || !(rowsOf p rows).isEmpty) :=
    gt_outer_fold p rows initState
  have hinit : (alGet p initState.perGT).isSome = false := rfl
  have hne' : (rowsOf p rows).isEmpty = false := by
    cases hrw : rowsOf p rows with
    | nil => exact absurd hrw hne
    | cons a t => rfl
  rw [hinit, hne'] at hsome
  simp only [Bool.false_or, Bool.not_false] at hsome
  obtain ⟨pm, halg⟩ := Option.isSome_iff_exists.mp hsome
  have hinner :
      alGet c ((alGet p (processRows rows).perGT).getD []) =
        if gtGamesOf p c rows = 0 then none
        else
          some
            ⟨gtWinsOf p c rows, gtLossOf p c rows, gtGamesOf p c rows, gtOutsOf p c rows⟩ :=
    gt_inner_fold p c rows initState
  have hzz : gtGamesOf p c rows = 0 := by simp [gtGamesOf, hz]
  rw [halg, Option.getD_some, if_pos hzz] at hinner
  constructor
  · simp only [gameTypeStats, halg]
    rfl
  · simp only [gameTypeStats, halg]
    refine List.mem_map.mpr ⟨c, hc, ?_⟩
    simp only [hinner]
    rfl

/-- C5 witness: player `"a"` has one Cricket game and no 501 games; the
breakdown still lists all four categories and shows a zero 501 row. -/
theorem claim_C5_zero_category_witness :
    rowsOf "a" [cricketWinRow] ≠ [] ∧ "501" ∈ GAME_TYPE_ORDER ∧
      gtRowsOf "a" "501" [cricketWinRow] = [] ∧
      ((gameTypeStats [cricketWinRow] "a").map (fun e => e.type) = GAME_TYPE_ORDER ∧
        (⟨"501", 0, 0, 0, 0, "", "", ""⟩ : GameTypeStatsRow) ∈
          gameTypeStats [cricketWinRow] "a") :=
  ⟨by decide, by decide, by decide,
    claim_C5_zero_category [cricketWinRow] "a" "501" (by decide) (by decide) (by decide)⟩

/-- C7: every aggregation is total — on an empty row set all outputs are
empty collections — and a row with a falsy `player_id` is skipped silently:
removing it from anywhere in the input changes no output. -/
theorem claim_C7_totality :
    (∀ p : String,
        wlList [] = [] ∧ threeList [] = [] ∧ mprList [] = [] ∧
          gameTypeStats [] p = [] ∧ headToHeadStats [] p = []) ∧
      ∀ (pre post : List MatchRow) (r : MatchRow) (p : String),
        ¬isProcessed r = true →
        wlList (pre ++ r :: post) = wlList (pre ++ post) ∧
          threeList (pre ++ r :: post) = threeList (pre ++ post) ∧
          mprList (pre ++ r :: post) = mprList (pre ++ post) ∧
          gameTypeStats (pre ++ r :: post) p = gameTypeStats (pre ++ post) p ∧
          headToHeadStats (pre ++ r :: post) p = headToHeadStats (pre ++ post) p := by
  constructor
  · intro p
    exact ⟨rfl, rfl, rfl, rfl, rfl⟩
  · intro pre post r p h
    have hp := processRows_skip h pre post
    refine ⟨?_, ?_, ?_, ?_, ?_⟩ <;>
      simp only [wlList, threeList, mprList, gameTypeStats, headToHeadStats, hp]

/-- C7 witness: a row with a missing `player_id` contributes nothing. -/
theorem claim_C7_totality_witness :
    ¬isProcessed badRow = true ∧
      wlList ([] ++ badRow :: []) = wlList ([] ++ []) :=
  ⟨by decide, (claim_C7_totality.2 [] [] badRow "a" (by decide)).1⟩

/-! ### Head-to-head counting -/

theorem h2hLen_push (A B P O : String) (oname : String) (t : Nat) (w : Bool)
    (hm : List (String × List (String × H2HEntry))) :
    h2hLen A B (h2hPush hm P O oname t w) =
      h2hLen A B hm + (if P = A ∧ O = B then 1 else 0) := by
  simp only [h2hPush, h2hLen]
  by_cases hPA : P = A
  · subst hPA
    rw [alGet_alSet_self, Option.getD_some]
    by_cases hOB : O = B
    · subst hOB
      rw [alGet_alSet_self]
      cases hE : alGet O ((alGet P hm).getD []) with
      | none => simp [hE]
      | some e =>
        by_cases hdn : (e.displayName.isEmpty && !oname.isEmpty) = true <;>
          simp [hE, hdn]
    · rw [alGet_alSet_ne (fun hh => hOB hh.symm)]
      simp [hOB]
  · rw [alGet_alSet_ne (fun hh => hPA hh.symm)]
    simp [hPA]

theorem h2hLen_inner (A B : String) (hAB : A ≠ B) (p : Participant) (t : Nat)
    (os : List Participant) : ∀ hm,
    h2hLen A B
        (os.foldl
          (fun hm o =>
            if p.playerId = o.playerId then hm
            else h2hPush hm p.playerId o.playerId o.displayName t p.isWinner)
          hm) =
      h2hLen A B hm +
        (if p.playerId = A then
          (os.filter (fun o => decide (o.playerId = B))).length
        else 0) := by
  induction os with
  | nil => intro hm; simp
  | cons o os' ih =>
    intro hm
    rw [List.foldl_cons]
    by_cases hskip : p.playerId = o.playerId
    · rw [if_pos hskip, ih]
      by_cases hpA : p.playerId = A
      · have hoB : decide (o.playerId = B) = false := by
          simp only [decide_eq_false_iff_not]
          intro hO
          exact hAB (by rw [← hpA, hskip, hO])
        simp [List.filter_cons, hoB, hpA]
      · simp [hpA]
    · rw [if_neg hskip, ih, h2hLen_push]
      by_cases hpA : p.playerId = A
      · by_cases hoB : o.playerId = B <;>
          simp [List.filter_cons, hpA, hoB] <;> try omega
      · simp [List.filter_cons, hpA]

theorem h2hLen_participants (A B : String) (hAB : A ≠ B) (t : Nat)
    (os ps : List Participant) : ∀ hm,
    h2hLen A B
        (ps.foldl
          (fun hm p =>
            os.foldl
              (fun hm o =>
                if p.playerId = o.playerId then hm
                else h2hPush hm p.playerId o.playerId o.displayName t p.isWinner)
              hm)
          hm) =
      h2hLen A B hm +
        (ps.filter (fun q => decide (q.playerId = A))).length *
          (os.filter (fun o => decide (o.playerId = B))).length := by
  induction ps with
  | nil => intro hm; simp
  | cons p ps' ih =>
    intro hm
    rw [List.foldl_cons, ih, h2hLen_inner A B hAB p t os]
    by_cases hpA : p.playerId = A <;>
      simp [List.filter_cons, hpA, Nat.succ_mul] <;> try omega

theorem h2hLen_partsFold (A B : String) (hAB : A ≠ B)
    (parts : List (String × MatchGroup)) : ∀ hm,
    h2hLen A B
        (parts.foldl
          (fun hm kg =>
            kg.2.participants.foldl
              (fun hm p =>
                kg.2.participants.foldl
                  (fun hm o =>
                    if p.playerId = o.playerId then hm
                    else h2hPush hm p.playerId o.playerId o.displayName kg.2.playedAt p.isWinner)
                  hm)
              hm)
          hm) =
      h2hLen A B hm + (parts.map (fun kg => cntIn A kg.2 * cntIn B kg.2)).sum := by
  induction parts with
  | nil => intro hm; simp
  | cons kg parts' ih =>
    intro hm
    rw [List.foldl_cons, ih,
      h2hLen_participants A B hAB kg.2.playedAt kg.2.participants kg.2.participants]
    simp only [List.map_cons, List.sum_cons, cntIn]
    omega

theorem h2hLen_buildHead (A B : String) (hAB : A ≠ B)
    (parts : List (String × MatchGroup)) :
    h2hLen A B (buildHead parts) =
      (parts.map (fun kg => cntIn A kg.2 * cntIn B kg.2)).sum := by
  have h := h2hLen_partsFold A B hAB parts []
  have h0 : h2hLen A B ([] : List (String × List (String × H2HEntry))) = 0 := rfl
  rw [h0, Nat.zero_add] at h
  exact h

theorem h2hLen_symm (A B : String) (hAB : A ≠ B) (parts : List (String × MatchGroup)) :
    h2hLen A B (buildHead parts) = h2hLen B A (buildHead parts) := by
  rw [h2hLen_buildHead A B hAB parts, h2hLen_buildHead B A (fun hh => hAB hh.symm) parts]
  have hfun :
      (fun kg : String × MatchGroup => cntIn A kg.2 * cntIn B kg.2) =
        fun kg : String × MatchGroup => cntIn B kg.2 * cntIn A kg.2 :=
    funext fun kg => Nat.mul_comm _ _
  rw [hfun]

theorem h2hPush_inv {hm : List (String × List (String × H2HEntry))}
    (h : hmInv hm) (P O oname : String) (t : Nat) (w : Bool) :
    hmInv (h2hPush hm P O oname t w) := by
  obtain ⟨h1, h2⟩ := h
  have hpm : (alKeys ((alGet P hm).getD [])).Nodup ∧
      ∀ kv2 ∈ (alGet P hm).getD [], kv2.2.outcomes ≠ [] := by
    cases hP : alGet P hm with
    | none => simp
    | some pm0 =>
      have hmem := mem_of_alGet hP
      exact ⟨(h2 _ hmem).1, (h2 _ hmem).2⟩
  constructor
  · simp only [h2hPush]
    exact nodup_alSet h1 _ _
  · simp only [h2hPush]
    apply alSet_forall
      (P := fun _ pm => (alKeys pm).Nodup ∧ ∀ kv2 ∈ pm, kv2.2.outcomes ≠ [])
      (fun kv hv => h2 kv hv) P
    constructor
    · exact nodup_alSet hpm.1 _ _
    · apply alSet_forall (P := fun _ e => e.outcomes ≠ []) (fun kv2 hv => hpm.2 kv2 hv) O
      simp

theorem inner_hmInv (p : Participant) (t : Nat) (os : List Participant) :
    ∀ hm, hmInv hm →
    hmInv
      (os.foldl
        (fun hm o =>
          if p.playerId = o.playerId then hm
          else h2hPush hm p.playerId o.playerId o.displayName t p.isWinner)
        hm) := by
  induction os with
  | nil => intro hm h; exact h
  | cons o os' ih =>
    intro hm h
    rw [List.foldl_cons]
    apply ih
    by_cases hskip : p.playerId = o.playerId
    · rw [if_pos hskip]; exact h
    · rw [if_neg hskip]; exact h2hPush_inv h _ _ _ _ _

theorem participants_hmInv (t : Nat) (os ps : List Participant) :
    ∀ hm, hmInv hm →
    hmInv
      (ps.foldl
        (fun hm p =>
          os.foldl
            (fun hm o =>
              if p.playerId = o.playerId then hm
              else h2hPush hm p.playerId o.playerId o.displayName t p.isWinner)
            hm)
        hm) := by
  induction ps with
  | nil => intro hm h; exact h
  | cons p ps' ih =>
    intro hm h
    rw [List.foldl_cons]
    exact ih _ (inner_hmInv p t os hm h)

theorem buildHead_hmInv (parts : List (String × MatchGroup)) :
    hmInv (buildHead parts) := by
  have hstep : ∀ hm, hmInv hm →
      hmInv
        (parts.foldl
          (fun hm kg =>
            kg.2.participants.foldl
              (fun hm p =>
                kg.2.participants.foldl
                  (fun hm o =>
                    if p.playerId = o.playerId then hm
                    else h2hPush hm p.playerId o.playerId o.displayName kg.2.playedAt p.isWinner)
                  hm)
              hm)
          hm) := by
    induction parts with
    | nil => intro hm h; exact h
    | cons kg parts' ih =>
      intro hm h
      rw [List.foldl_cons]
      exact ih _ (participants_hmInv kg.2.playedAt kg.2.participants kg.2.participants hm h)
  exact hstep [] ⟨List.nodup_nil, by simp⟩

/-- In a match with exactly two participants, the product of occurrence
counts of two distinct players is 1 exactly when both appear. -/
theorem two_participants_count (A B : String) (hAB : A ≠ B) (g : MatchGroup)
    (h2 : g.participants.length = 2) :
    cntIn A g * cntIn B g = if bothAppear A B g then 1 else 0 := by
  cases hps : g.participants with
  | nil => rw [hps] at h2; simp at h2
  | cons x t =>
    cases t with
    | nil => rw [hps] at h2; simp at h2
    | cons y t2 =>
      cases t2 with
      | cons z t3 => rw [hps] at h2; simp at h2
      | nil =>
        simp only [cntIn, bothAppear, hps, List.filter_cons, List.filter_nil,
          List.map_cons, List.map_nil, List.mem_cons, List.not_mem_nil, or_false]
        by_cases hxA : x.playerId = A <;> by_cases hyA : y.playerId = A <;>
          by_cases hxB : x.playerId = B <;> by_cases hyB : y.playerId = B <;>
          simp_all [eq_comm]

theorem sum_ite_count {X : Type} (l : List X) (g : X → Nat) (q : X → Bool)
    (h : ∀ x ∈ l, g x = if q x then 1 else 0) :
    (l.map g).sum = (l.filter q).length := by
  induction l with
  | nil => rfl
  | cons x t ih =>
    rw [List.map_cons, List.sum_cons,
      ih (fun y hy => h y (List.mem_cons_of_mem _ hy)), List.filter_cons,
      h x (List.mem_cons_self _ _)]
    by_cases hq : q x = true <;> simp [hq, Nat.add_comm]

/-- C4: when every grouped match has exactly two participants, the
head-to-head record of `A` versus `B` counts exactly the matches in which
both appear, and `B`'s record against `A` exists and counts the same number
of games; in general one head-to-head outcome entry is produced per
participant pair per match. -/
theorem claim_C4_h2h_symmetry :
    ∀ (rows : List MatchRow) (A B : String),
      (∀ kv ∈ (processRows rows).parts, kv.2.participants.length = 2) →
      A ≠ B →
      ∀ recA ∈ headToHeadStats rows A, recA.playerId = B →
        recA.games = matchesWithBoth A B rows ∧
          ∃ recB ∈ headToHeadStats rows B, recB.playerId = A ∧ recB.games = recA.games := by
  intro rows A B h2p hAB recA hmem hpid
  cases halg : alGet A (buildHead (processRows rows).parts) with
  | none => simp [headToHeadStats, halg] at hmem
  | some om =>
    simp only [headToHeadStats, halg, List.mem_insertionSort, List.mem_map] at hmem
    obtain ⟨kv, hkvmem, rfl⟩ := hmem
    have hB : kv.1 = B := hpid
    obtain ⟨hnd, hforall⟩ := buildHead_hmInv (processRows rows).parts
    have hOmMem : (A, om) ∈ buildHead (processRows rows).parts := mem_of_alGet halg
    obtain ⟨hndOm, hNE⟩ := hforall _ hOmMem
    have hkv' : (B, kv.2) ∈ om := by
      rw [← hB]
      rwa [Prod.mk.eta]
    have hgetB : alGet B om = some kv.2 := alGet_of_mem hndOm hkv'
    have hlenAB : h2hLen A B (buildHead (processRows rows).parts) = kv.2.outcomes.length := by
      unfold h2hLen
      rw [halg, Option.getD_some, hgetB]
      rfl
    have hne0 : kv.2.outcomes ≠ [] := hNE (B, kv.2) hkv'
    have hsum := h2hLen_buildHead A B hAB (processRows rows).parts
    have hcount :
        ((processRows rows).parts.map (fun kg => cntIn A kg.2 * cntIn B kg.2)).sum =
          ((processRows rows).parts.filter (fun kg => bothAppear A B kg.2)).length :=
      sum_ite_count _ _ _ (fun kg hkg => two_participants_count A B hAB kg.2 (h2p kg hkg))
    constructor
    · show (sortChron kv.2.outcomes).length = matchesWithBoth A B rows
      rw [length_sortChron, ← hlenAB, hsum, hcount]
      rfl
    · have hBA : h2hLen B A (buildHead (processRows rows).parts) = kv.2.outcomes.length := by
        rw [← h2hLen_symm A B hAB, hlenAB]
      have hpos : h2hLen B A (buildHead (processRows rows).parts) ≠ 0 := by
        rw [hBA]
        intro hlen
        exact hne0 (List.length_eq_zero.mp hlen)
      cases halgB : alGet B (buildHead (processRows rows).parts) with
      | none =>
        exfalso
        apply hpos
        unfold h2hLen
        rw [halgB]
        rfl
      | some om' =>
        cases hgetA : alGet A om' with
        | none =>
          exfalso
          apply hpos
          unfold h2hLen
          rw [halgB, Option.getD_some, hgetA]
          rfl
        | some e' =>
          have hthis :
              h2hLen B A (buildHead (processRows rows).parts) = e'.outcomes.length := by
            unfold h2hLen
            rw [halgB, Option.getD_some, hgetA]
            rfl
          have hlenBA : e'.outcomes.length = kv.2.outcomes.length := hthis.symm.trans hBA
          simp only [headToHeadStats, halgB, List.mem_insertionSort, List.mem_map]
          refine ⟨_, ⟨(A, e'), mem_of_alGet hgetA, rfl⟩, rfl, ?_⟩
          show (sortChron e'.outcomes).length = (sortChron kv.2.outcomes).length
          rw [length_sortChron, length_sortChron]
          exact hlenBA

/-- C4 witness: one 1v1 match between `"a"` and `"b"`. -/
theorem claim_C4_h2h_symmetry_witness :
    (∀ kv ∈ (processRows h2hDemo).parts, kv.2.participants.length = 2) ∧
      ("a" : String) ≠ "b" ∧
      ∃ recA ∈ headToHeadStats h2hDemo "a",
        recA.playerId = "b" ∧
          recA.games = matchesWithBoth "a" "b" h2hDemo ∧
            ∃ recB ∈ headToHeadStats h2hDemo "b",
              recB.playerId = "a" ∧ recB.games = recA.games := by
  have hne : headToHeadStats h2hDemo "a" ≠ [] := by decide
  exact
    ⟨by decide, by decide,
      (headToHeadStats h2hDemo "a").head hne, List.head_mem hne, rfl,
      claim_C4_h2h_symmetry h2hDemo "a" "b" (by decide) (by decide)
        ((headToHeadStats h2hDemo "a").head hne) (List.head_mem hne) rfl⟩

end DartsAgg
